import Mathlib

/-!
Verification of the zing-stats core: the paginated Gerrit change ingestion
engine (`zingstats/changes.py`), the free-text CI-run comment parser
(`zingstats/parser.py`), and the statistics aggregator
(`zingstats/zing_stats.py`).

Modelling conventions:
* Python `datetime` values are totally ordered; they are modelled as `Nat`
  timestamps, since the code only compares them and takes differences.
* Python dicts used as accumulators (`defaultdict(int)`) are modelled as
  total functions defaulting to `0`; plain dicts as `Option`-valued functions.
* The insertion-ordered accumulated change dict of `Changes` is modelled as an
  association list to which entries are only appended (the code assigns a key
  only after checking it is absent).
* Python exceptions are modelled with `Except String` / `Option`.
* Python 2 `re` patterns over byte strings have ASCII semantics: `\d` is
  `[0-9]`, `\s` is `[ \t\n\r\v\f]`, `\w` is `[a-zA-Z0-9_]`, and `.` is any
  character except `\n` (any character at all under `re.DOTALL`).
-/

set_option maxRecDepth 100000

/-- ASCII digit, Python 2 `re` class `\d`. -/
def pyDigit (c : Char) : Bool := c.isDigit

/-- Python 2 `re` whitespace class `\s`. -/
def pyWhite (c : Char) : Bool :=
  c = ' ' || c = '\t' || c = '\n' || c = '\x0d' || c = '\x0b' || c = '\x0c'

/-- Python 2 `re` word class `\w`. -/
def pyWord (c : Char) : Bool := c.isAlpha || c.isDigit || c = '_'

/-- Python 2 `re` class `\S`. -/
def nonWs (c : Char) : Bool := !pyWhite c

/-- Python 2 `re` class `\D`. -/
def nonDigit (c : Char) : Bool := !pyDigit c

/-- Python 2 `re` metacharacter `.` without `re.DOTALL`: anything but newline. -/
def dotNoNl (c : Char) : Bool := c != '\n'

/-- Python 2 `re` metacharacter `.` under `re.DOTALL`: any character. -/
def anyC (_ : Char) : Bool := true

/-- Python `str.strip()` (default whitespace stripping on both ends). -/
def pyStrip (l : List Char) : List Char :=
  ((l.dropWhile pyWhite).reverse.dropWhile pyWhite).reverse

/-- Python `str.rstrip(c)`: drop every trailing occurrence of `c`. -/
def pyRstrip (c : Char) (l : List Char) : List Char :=
  (l.reverse.dropWhile (fun x => x = c)).reverse

/-- Python `int()` on a (non-empty) decimal digit string, the only shape the
parser ever feeds it. -/
def pyInt (l : List Char) : Nat :=
  l.foldl (fun a c => a * 10 + (c.toNat - 48)) 0

/-- Abstract syntax of the fragment of Python 2 `re` used by
`zingstats/parser.py`: literals, single-character classes, greedy `?`, and
greedy `+` / `*` over a single-character class, plus named capture groups
(numbered here). -/
inductive RE where
  | emp : RE
  | cls (p : Char → Bool) : RE
  | lit (s : List Char) : RE
  | seq (a b : RE) : RE
  | opt (a : RE) : RE
  | rep1 (p : Char → Bool) : RE
  | rep0 (p : Char → Bool) : RE
  | grp (n : Nat) (a : RE) : RE

/-- Captured groups of one match attempt: group number paired with captured
text, most recently closed group first. -/
abbrev Caps := List (Nat × List Char)

/-- First (most recent) capture recorded for group `n`, i.e. Python
`match.group(name)`; `none` models both an unmatched optional group and a
group absent from the pattern (the latter raises `IndexError` in Python,
which `parser.py` catches and turns into `None`). -/
def capGet : Caps → Nat → Option (List Char)
  | [], _ => none
  | (k, v) :: rest, n => if k = n then some v else capGet rest n

/-- Sequence a list of pattern pieces. -/
def cat (l : List RE) : RE := l.foldr RE.seq RE.emp

/-- Greedy backtracking over a starred class: try consuming `i` characters,
then `i - 1`, ..., finally `0`. -/
def tryFrom (s : List Char) (caps : Caps) (k : List Char → Caps → Option Caps) :
    Nat → Option Caps
  | 0 => k s caps
  | i + 1 => (k (s.drop (i + 1)) caps) <|> tryFrom s caps k i

/-- Greedy backtracking over a `+`-repeated class: try consuming `i`
characters down to `1`; fail if even one character cannot be consumed. -/
def tryFrom1 (s : List Char) (caps : Caps) (k : List Char → Caps → Option Caps) :
    Nat → Option Caps
  | 0 => none
  | i + 1 => (k (s.drop (i + 1)) caps) <|> tryFrom1 s caps k i

/-- Backtracking matcher with greedy (leftmost-longest-first) semantics
matching Python `re`: `k` is the continuation receiving the remaining input
and the captures recorded so far. -/
def reMatch : RE → List Char → Caps → (List Char → Caps → Option Caps) → Option Caps
  | .emp, s, caps, k => k s caps
  | .cls p, s, caps, k =>
    match s with
    | [] => none
    | c :: rest => if p c then k rest caps else none
  | .lit l, s, caps, k => if l.isPrefixOf s then k (s.drop l.length) caps else none
  | .seq a b, s, caps, k => reMatch a s caps (fun s1 c1 => reMatch b s1 c1 k)
  | .opt a, s, caps, k => (reMatch a s caps k) <|> k s caps
  | .rep1 p, s, caps, k => tryFrom1 s caps k (s.takeWhile p).length
  | .rep0 p, s, caps, k => tryFrom s caps k (s.takeWhile p).length
  | .grp n a, s, caps, k =>
    reMatch a s caps (fun s1 c1 => k s1 ((n, s.take (s.length - s1.length)) :: c1))

/-- Python `pattern.match(s)`: anchored at the start, no end anchor. -/
def reMatchTop (r : RE) (s : List Char) : Option Caps :=
  reMatch r s [] (fun _ caps => some caps)

/-- Matching one whole line against a job-line pattern.  The job patterns are
anchored `^... (?P...the_rest.*)$` and run under `re.MULTILINE` `finditer`;
since `.` cannot cross a newline and the pattern ends in `.*$`, every match
spans exactly one full line, so `finditer` over the block is equivalent to
matching each `\n`-separated line in full. -/
def reMatchLine (r : RE) (line : List Char) : Option Caps :=
  reMatch r line [] (fun rest caps => if rest.isEmpty then some caps else none)

/-- Python `str.split('\n')`. -/
def splitNl : List Char → List (List Char)
  | [] => [[]]
  | c :: rest =>
    if c = '\n' then [] :: splitNl rest
    else
      match splitNl rest with
      | [] => [[c]]
      | l :: ls => (c :: l) :: ls

/-!
Group numbering used for the run patterns: 0 = `num`, 1 = `v_score`,
2 = `status`, 3 = `jobs`.  For the job patterns: 0 = `proto`,
1 = `jenkins_path`/`logs_path`, 2 = `name`, 3 = `result`, 4 = `time_h`,
5 = `time_m`, 6 = `time_s`, 7 = `non_voting`, 8 = `the_rest`.
-/

/-- `'Patch Set (?P<num>\d+): Verified(?P<v_score>\S+)\s+Build (?P<status>\S+)\s+(?P<jobs>.+)'`
compiled with `re.MULTILINE | re.DOTALL` (`parse_ci_job_comments`). -/
def gerritCiRunRE : RE :=
  cat [.lit ("Patch Set ".toList), .grp 0 (.rep1 pyDigit), .lit (": Verified".toList),
    .grp 1 (.rep1 nonWs), .rep1 pyWhite, .lit ("Build ".toList), .grp 2 (.rep1 nonWs),
    .rep1 pyWhite, .grp 3 (.rep1 anyC)]

/-- `'Build (?P<status>\S+)\s+(?P<jobs>.+)'` compiled with
`re.MULTILINE | re.DOTALL` (`parse_pr_message`); it has no `num` or `v_score`
group. -/
def prCiRunRE : RE :=
  cat [.lit ("Build ".toList), .grp 2 (.rep1 nonWs), .rep1 pyWhite, .grp 3 (.rep1 anyC)]

/-- Shared tail of both job-line patterns:
`' in (?P<time_h>\d+h )?(?P<time_m>\d+m )?(?P<time_s>\d+s)(?P<non_voting> \(non\-voting\))?(?P<the_rest>.*)$'`.
The `$` anchor is realised by `reMatchLine` requiring the whole line to be
consumed. -/
def timeTailRE : RE :=
  cat [.lit (" in ".toList),
    .opt (.grp 4 (cat [.rep1 pyDigit, .lit ("h ".toList)])),
    .opt (.grp 5 (cat [.rep1 pyDigit, .lit ("m ".toList)])),
    .grp 6 (cat [.rep1 pyDigit, .lit ("s".toList)]),
    .opt (.grp 7 (.lit (" (non-voting)".toList))),
    .grp 8 (.rep0 dotNoNl)]

/-- `'^- (?P<proto>.+)?://(?P<jenkins_path>.+)?/job/(?P<name>\S+)/\d+/ : (?P<result>\S+)'`
part of the v1 job pattern (`ci_job_v1_patt`). -/
def ciJobV1HeadRE : RE :=
  cat [.lit ("- ".toList), .opt (.grp 0 (.rep1 dotNoNl)), .lit ("://".toList),
    .opt (.grp 1 (.rep1 dotNoNl)), .lit ("/job/".toList), .grp 2 (.rep1 nonWs),
    .lit ("/".toList), .rep1 pyDigit, .lit ("/ : ".toList), .grp 3 (.rep1 nonWs)]

/-- The full v1 job-line pattern. -/
def ciJobV1RE : RE := .seq ciJobV1HeadRE timeTailRE

/-- `'^- (?P<proto>.+)?://(?P<logs_path>.+)?/(?P<name>\D+) : (?P<result>\S+)'`
part of the v2 job pattern (`ci_job_v2_patt`). -/
def ciJobV2HeadRE : RE :=
  cat [.lit ("- ".toList), .opt (.grp 0 (.rep1 dotNoNl)), .lit ("://".toList),
    .opt (.grp 1 (.rep1 dotNoNl)), .lit ("/".toList), .grp 2 (.rep1 nonDigit),
    .lit (" : ".toList), .grp 3 (.rep1 nonWs)]

/-- The full v2 job-line pattern. -/
def ciJobV2RE : RE := .seq ciJobV2HeadRE timeTailRE

/-- One CI job extracted from a job line (the dict built per job). -/
structure PJob where
  name : List Char
  result : List Char
  total_sec : Nat
  non_voting : Option (List Char)
deriving DecidableEq, Repr

/-- One CI run extracted from a message (the dict built per run); a message
that does not match the run grammar yields no `PRun` at all (the empty dict). -/
structure PRun where
  num : Option (List Char)
  v_score : Option (List Char)
  status : List Char
  jobs : List PJob
deriving DecidableEq, Repr

/-- Python truthiness of an optional string (`None` and `''` are falsy). -/
def truthy (o : Option (List Char)) : Bool :=
  match o with
  | none => false
  | some l => !l.isEmpty

/-- Build the per-job dict from one job-line match, mirroring the loop body of
`__parse_change_messages`: mash the time fields together into total seconds,
and raise if `the_rest` is non-empty. -/
def buildJob (caps : Caps) : Except String PJob :=
  let th := capGet caps 4
  let tm := capGet caps 5
  let ts := capGet caps 6
  let t0 : Nat := 0
  let t1 := if truthy th then t0 + pyInt (pyRstrip 'h' (pyStrip (th.getD []))) * 3600 else t0
  let t2 := if truthy tm then t1 + pyInt (pyRstrip 'm' (pyStrip (tm.getD []))) * 60 else t1
  let t3 := if truthy ts then t2 + pyInt (pyRstrip 's' (pyStrip (ts.getD []))) else t2
  let rest := (capGet caps 8).getD []
  if rest.length > 0 then
    .error ("unexpected content in job: " ++ rest.asString)
  else
    .ok { name := (capGet caps 2).getD [], result := (capGet caps 3).getD [],
          total_sec := t3, non_voting := capGet caps 7 }

/-- Build all job dicts in order, propagating the first raised error. -/
def buildJobs : List Caps → Except String (List PJob)
  | [] => .ok []
  | c :: rest =>
    match buildJob c with
    | .error e => .error e
    | .ok j =>
      match buildJobs rest with
      | .error e => .error e
      | .ok js => .ok (j :: js)

/-- All job-line matches of the jobs block: `itertools.chain` of the v1
`finditer` results and the v2 `finditer` results (format-then-order). -/
def jobMatchesOf (jobsTxt : List Char) : List Caps :=
  (splitNl jobsTxt).filterMap (reMatchLine ciJobV1RE)
    ++ (splitNl jobsTxt).filterMap (reMatchLine ciJobV2RE)

/-- `__parse_change_messages(message, ci_run_patt)`: `Except.ok none` models
the empty dict returned for a non-matching message, `Except.error` the
exception raised on a job line with unexpected trailing content. -/
def parseChangeMessages (message : List Char) (runRe : RE) : Except String (Option PRun) :=
  match reMatchTop runRe message with
  | none => .ok none
  | some caps =>
    match buildJobs (jobMatchesOf ((capGet caps 3).getD [])) with
    | .error e => .error e
    | .ok jobs =>
      .ok (some { num := capGet caps 0, v_score := capGet caps 1,
                  status := (capGet caps 2).getD [], jobs })

/-- `'(Patch Set \d+:\n\n)?Promotion review .+ has brought into alpha channel'`
(`parse_promotion_success`), compiled with no flags. -/
def promotionSuccessRE : RE :=
  cat [.opt (.grp 0 (cat [.lit ("Patch Set ".toList), .rep1 pyDigit, .lit (":\n\n".toList)])),
    .lit ("Promotion review ".toList), .rep1 dotNoNl,
    .lit (" has brought into alpha channel".toList)]

/-- `'(Patch Set \d+:\n\n)?PROMOTION FAILURE\n\nPromotion of artifacts from this change into Alpha channel has failed'`
(`parse_promotion_failure`), compiled with no flags. -/
def promotionFailureRE : RE :=
  cat [.opt (.grp 0 (cat [.lit ("Patch Set ".toList), .rep1 pyDigit, .lit (":\n\n".toList)])),
    .lit ("PROMOTION FAILURE\n\nPromotion of artifacts from this change into Alpha channel has failed".toList)]

/-- `parse_promotion_success(msg)` used as a boolean signal. -/
def parsePromotionSuccess (msg : List Char) : Bool :=
  (reMatchTop promotionSuccessRE msg).isSome

/-- `parse_promotion_failure(msg)` used as a boolean signal. -/
def parsePromotionFailure (msg : List Char) : Bool :=
  (reMatchTop promotionFailureRE msg).isSome

/-- Declarative matching semantics for `RE`: `REMatch r t m` says pattern `r`
can match exactly the text `t`, recording captures `m` (most recently closed
group first, mirroring the matcher's accumulation order). -/
inductive REMatch : RE → List Char → Caps → Prop where
  | emp : REMatch .emp [] []
  | cls {p : Char → Bool} {c : Char} : p c = true → REMatch (.cls p) [c] []
  | lit {l : List Char} : REMatch (.lit l) l []
  | seq {a b : RE} {t1 m1 t2 m2} :
      REMatch a t1 m1 → REMatch b t2 m2 → REMatch (.seq a b) (t1 ++ t2) (m2 ++ m1)
  | optSome {a : RE} {t m} : REMatch a t m → REMatch (.opt a) t m
  | optNone {a : RE} : REMatch (.opt a) [] []
  | rep1 {p : Char → Bool} {t} :
      t ≠ [] → (∀ c ∈ t, p c = true) → REMatch (.rep1 p) t []
  | rep0 {p : Char → Bool} {t} : (∀ c ∈ t, p c = true) → REMatch (.rep0 p) t []
  | grp {n : Nat} {a : RE} {t m} : REMatch a t m → REMatch (.grp n a) t ((n, t) :: m)

theorem tryFrom_sound (i : Nat) :
    ∀ {s : List Char} {caps : Caps} {k : List Char → Caps → Option Caps} {res : Caps},
    tryFrom s caps k i = some res → ∃ j, j ≤ i ∧ k (s.drop j) caps = some res := by
  induction i with
  | zero =>
    intro s caps k res h
    exact ⟨0, Nat.le_refl 0, h⟩
  | succ n ih =>
    intro s caps k res h
    unfold tryFrom at h
    cases hk : k (s.drop (n + 1)) caps with
    | some v =>
      rw [hk] at h
      simp only [Option.some_orElse] at h
      exact ⟨n + 1, Nat.le_refl _, hk.trans h⟩
    | none =>
      rw [hk] at h
      simp only [Option.none_orElse] at h
      obtain ⟨j, hj, hkj⟩ := ih h
      exact ⟨j, Nat.le_succ_of_le hj, hkj⟩

theorem tryFrom1_sound (i : Nat) :
    ∀ {s : List Char} {caps : Caps} {k : List Char → Caps → Option Caps} {res : Caps},
    tryFrom1 s caps k i = some res → ∃ j, 1 ≤ j ∧ j ≤ i ∧ k (s.drop j) caps = some res := by
  induction i with
  | zero =>
    intro s caps k res h
    exact absurd h (by simp [tryFrom1])
  | succ n ih =>
    intro s caps k res h
    unfold tryFrom1 at h
    cases hk : k (s.drop (n + 1)) caps with
    | some v =>
      rw [hk] at h
      simp only [Option.some_orElse] at h
      exact ⟨n + 1, Nat.succ_le_succ (Nat.zero_le n), Nat.le_refl _, hk.trans h⟩
    | none =>
      rw [hk] at h
      simp only [Option.none_orElse] at h
      obtain ⟨j, hj1, hj, hkj⟩ := ih h
      exact ⟨j, hj1, Nat.le_succ_of_le hj, hkj⟩

theorem takeWhile_len_le (p : Char → Bool) :
    ∀ s : List Char, (s.takeWhile p).length ≤ s.length := by
  intro s
  induction s with
  | nil => simp
  | cons a rest ih =>
    by_cases hp : p a = true
    · simp only [List.takeWhile_cons, hp, if_true, List.length_cons]
      omega
    · have hp' : p a = false := by simpa using hp
      simp [List.takeWhile_cons, hp']

theorem take_sat_of_le_takeWhile {p : Char → Bool} :
    ∀ (s : List Char) (j : Nat), j ≤ (s.takeWhile p).length →
    ∀ c ∈ s.take j, p c = true := by
  intro s
  induction s with
  | nil => intro j _ c hc; simp at hc
  | cons a rest ih =>
    intro j hj c hc
    by_cases hp : p a = true
    · simp only [List.takeWhile_cons, hp, if_true, List.length_cons] at hj
      cases j with
      | zero => simp at hc
      | succ j' =>
        simp only [List.take_succ_cons, List.mem_cons] at hc
        rcases hc with rfl | hc
        · exact hp
        · exact ih j' (Nat.le_of_succ_le_succ hj) c hc
    · have hp' : p a = false := by simpa using hp
      simp only [List.takeWhile_cons, hp', Bool.false_eq_true, if_false, List.length_nil,
        Nat.le_zero] at hj
      subst hj
      simp at hc

theorem reMatch_sound (r : RE) :
    ∀ {s : List Char} {caps : Caps} {k : List Char → Caps → Option Caps} {res : Caps},
    reMatch r s caps k = some res →
    ∃ t m rest, s = t ++ rest ∧ REMatch r t m ∧ k rest (m ++ caps) = some res := by
  induction r with
  | emp =>
    intro s caps k res h
    exact ⟨[], [], s, rfl, .emp, h⟩
  | cls p =>
    intro s caps k res h
    cases s with
    | nil => exact absurd h (by simp [reMatch])
    | cons c rest =>
      simp only [reMatch] at h
      by_cases hp : p c = true
      · rw [if_pos hp] at h
        exact ⟨[c], [], rest, rfl, .cls hp, h⟩
      · rw [if_neg hp] at h
        exact absurd h (by simp)
  | lit l =>
    intro s caps k res h
    simp only [reMatch] at h
    by_cases hp : l.isPrefixOf s = true
    · rw [if_pos hp] at h
      obtain ⟨rest, rfl⟩ := (List.isPrefixOf_iff_prefix.mp hp)
      rw [List.drop_left] at h
      exact ⟨l, [], rest, rfl, .lit, h⟩
    · rw [if_neg hp] at h
      exact absurd h (by simp)
  | seq a b iha ihb =>
    intro s caps k res h
    simp only [reMatch] at h
    obtain ⟨t1, m1, rest1, rfl, ha, h1⟩ := iha h
    obtain ⟨t2, m2, rest, rfl, hb, h2⟩ := ihb h1
    refine ⟨t1 ++ t2, m2 ++ m1, rest, by rw [List.append_assoc], .seq ha hb, ?_⟩
    rwa [List.append_assoc]
  | opt a iha =>
    intro s caps k res h
    simp only [reMatch] at h
    cases hm : reMatch a s caps k with
    | some v =>
      rw [hm] at h
      simp only [Option.some_orElse] at h
      obtain ⟨t, m, rest, rfl, ha, hk⟩ := iha (hm.trans h)
      exact ⟨t, m, rest, rfl, .optSome ha, hk⟩
    | none =>
      rw [hm] at h
      simp only [Option.none_orElse] at h
      exact ⟨[], [], s, rfl, .optNone, h⟩
  | rep1 p =>
    intro s caps k res h
    simp only [reMatch] at h
    obtain ⟨j, hj1, hj, hk⟩ := tryFrom1_sound _ h
    refine ⟨s.take j, [], s.drop j, (List.take_append_drop j s).symm, ?_, hk⟩
    refine .rep1 ?_ (take_sat_of_le_takeWhile s j hj)
    have hjs : j ≤ s.length := hj.trans (takeWhile_len_le p s)
    intro hemp
    have := congrArg List.length hemp
    simp only [List.length_take, List.length_nil] at this
    omega
  | rep0 p =>
    intro s caps k res h
    simp only [reMatch] at h
    obtain ⟨j, hj, hk⟩ := tryFrom_sound _ h
    exact ⟨s.take j, [], s.drop j, (List.take_append_drop j s).symm,
      .rep0 (take_sat_of_le_takeWhile s j hj), hk⟩
  | grp n a iha =>
    intro s caps k res h
    simp only [reMatch] at h
    obtain ⟨t, m, rest, rfl, ha, hk⟩ := iha h
    refine ⟨t, (n, t) :: m, rest, rfl, .grp ha, ?_⟩
    have hlen : (t ++ rest).length - rest.length = t.length := by
      simp [List.length_append]
    rw [hlen, List.take_left] at hk
    exact hk

/-- Group numbers occurring syntactically in a pattern. -/
def groupsOf : RE → List Nat
  | .grp n a => n :: groupsOf a
  | .seq a b => groupsOf a ++ groupsOf b
  | .opt a => groupsOf a
  | _ => []

theorem REMatch_keys {r : RE} {t : List Char} {m : Caps} (h : REMatch r t m) :
    ∀ pr ∈ m, pr.1 ∈ groupsOf r := by
  induction h with
  | emp => simp
  | cls _ => simp
  | lit => simp
  | seq _ _ iha ihb =>
    intro pr hpr
    rcases List.mem_append.mp hpr with hm | hm
    · exact List.mem_append.mpr (Or.inr (ihb pr hm))
    · exact List.mem_append.mpr (Or.inl (iha pr hm))
  | optSome _ iha => exact iha
  | optNone => simp
  | rep1 _ _ => simp
  | rep0 _ => simp
  | grp _ iha =>
    intro pr hpr
    rcases List.mem_cons.mp hpr with rfl | hm
    · exact List.mem_cons_self _ _
    · exact List.mem_cons_of_mem _ (iha pr hm)

theorem capGet_append (a b : Caps) (n : Nat) :
    capGet (a ++ b) n =
      match capGet a n with
      | some v => some v
      | none => capGet b n := by
  induction a with
  | nil => simp [capGet]
  | cons pr rest ih =>
    obtain ⟨k, v⟩ := pr
    by_cases hk : k = n
    · simp [capGet, hk]
    · simp [capGet, hk, ih]

theorem capGet_eq_none {m : Caps} {n : Nat} (h : ∀ pr ∈ m, pr.1 ≠ n) :
    capGet m n = none := by
  induction m with
  | nil => rfl
  | cons pr rest ih =>
    obtain ⟨k, v⟩ := pr
    have hk : k ≠ n := h (k, v) (List.mem_cons_self _ _)
    simp only [capGet, if_neg hk]
    exact ih (fun pr hpr => h pr (List.mem_cons_of_mem _ hpr))

theorem REMatch_emp_inv {t m} (h : REMatch .emp t m) : t = [] ∧ m = [] := by
  cases h
  exact ⟨rfl, rfl⟩

theorem REMatch_lit_inv {l t m} (h : REMatch (.lit l) t m) : t = l ∧ m = [] := by
  cases h
  exact ⟨rfl, rfl⟩

theorem REMatch_rep1_inv {p t m} (h : REMatch (.rep1 p) t m) :
    t ≠ [] ∧ (∀ c ∈ t, p c = true) ∧ m = [] := by
  cases h with
  | rep1 hne hall => exact ⟨hne, hall, rfl⟩

theorem REMatch_rep0_inv {p t m} (h : REMatch (.rep0 p) t m) :
    (∀ c ∈ t, p c = true) ∧ m = [] := by
  cases h with
  | rep0 hall => exact ⟨hall, rfl⟩

theorem REMatch_seq_inv {a b t m} (h : REMatch (.seq a b) t m) :
    ∃ t1 m1 t2 m2, t = t1 ++ t2 ∧ m = m2 ++ m1 ∧ REMatch a t1 m1 ∧ REMatch b t2 m2 := by
  cases h with
  | seq ha hb => exact ⟨_, _, _, _, rfl, rfl, ha, hb⟩

theorem REMatch_opt_inv {a t m} (h : REMatch (.opt a) t m) :
    REMatch a t m ∨ (t = [] ∧ m = []) := by
  cases h with
  | optSome ha => exact Or.inl ha
  | optNone => exact Or.inr ⟨rfl, rfl⟩

theorem REMatch_grp_inv {n a t m} (h : REMatch (.grp n a) t m) :
    ∃ m1, m = (n, t) :: m1 ∧ REMatch a t m1 := by
  cases h with
  | grp ha => exact ⟨_, rfl, ha⟩

/-- A match of the body of one of the time groups (`\d+h `, `\d+m `, `\d+s`)
is a non-empty digit string followed by the unit literal. -/
theorem time_component_shape {u : List Char} {t m} :
    REMatch (cat [.rep1 pyDigit, .lit u]) t m →
    ∃ d, d ≠ [] ∧ (∀ c ∈ d, pyDigit c = true) ∧ t = d ++ u ∧ m = [] := by
  intro h
  obtain ⟨t1, m1, t2, m2, rfl, rfl, h1, h2⟩ := REMatch_seq_inv h
  obtain ⟨hne, hall, rfl⟩ := REMatch_rep1_inv h1
  obtain ⟨t3, m3, t4, m4, rfl, rfl, h3, h4⟩ := REMatch_seq_inv h2
  obtain ⟨rfl, rfl⟩ := REMatch_lit_inv h3
  obtain ⟨rfl, rfl⟩ := REMatch_emp_inv h4
  exact ⟨t1, hne, hall, by simp, rfl⟩

theorem pyDigit_not_white {c : Char} (h : pyDigit c = true) : pyWhite c = false := by
  by_contra h'
  have hw : pyWhite c = true := by simpa using h'
  simp only [pyWhite, Bool.or_eq_true, decide_eq_true_eq] at hw
  rcases hw with ((((rfl | rfl) | rfl) | rfl) | rfl) | rfl <;> exact absurd h (by decide)

theorem dropWhile_white_digits {d : List Char} (hd : d ≠ [])
    (hdig : ∀ c ∈ d, pyDigit c = true) (suffix : List Char) :
    (d ++ suffix).dropWhile pyWhite = d ++ suffix := by
  obtain ⟨c, d', rfl⟩ := List.exists_cons_of_ne_nil hd
  have hc : pyWhite c = false := pyDigit_not_white (hdig c (by simp))
  simp [List.dropWhile_cons, hc]

theorem pyStrip_digits_unit_space {d : List Char} {u : Char} (hd : d ≠ [])
    (hdig : ∀ c ∈ d, pyDigit c = true) (hu_w : pyWhite u = false) :
    pyStrip (d ++ [u, ' ']) = d ++ [u] := by
  unfold pyStrip
  rw [dropWhile_white_digits hd hdig [u, ' ']]
  have hrev : (d ++ [u, ' ']).reverse = ' ' :: u :: d.reverse := by
    simp
  rw [hrev, List.dropWhile_cons]
  have hsp : pyWhite ' ' = true := by decide
  rw [if_pos hsp, List.dropWhile_cons, if_neg (by simp [hu_w])]
  simp

theorem pyStrip_digits_unit {d : List Char} {u : Char} (hd : d ≠ [])
    (hdig : ∀ c ∈ d, pyDigit c = true) (hu_w : pyWhite u = false) :
    pyStrip (d ++ [u]) = d ++ [u] := by
  unfold pyStrip
  rw [dropWhile_white_digits hd hdig [u]]
  have hrev : (d ++ [u]).reverse = u :: d.reverse := by simp
  rw [hrev, List.dropWhile_cons, if_neg (by simp [hu_w])]
  simp

theorem rstrip_digits {d : List Char} {u : Char} (hd : d ≠ [])
    (hdig : ∀ c ∈ d, pyDigit c = true) (hu : pyDigit u = false) :
    pyRstrip u (d ++ [u]) = d := by
  unfold pyRstrip
  have hrev : (d ++ [u]).reverse = u :: d.reverse := by simp
  rw [hrev, List.dropWhile_cons, if_pos (by simp)]
  cases hdr : d.reverse with
  | nil =>
    exact absurd (by simpa using congrArg List.reverse hdr) hd
  | cons c tl =>
    have hc : pyDigit c = true := by
      have : c ∈ d := by
        rw [show c ∈ d ↔ c ∈ d.reverse from (List.mem_reverse).symm, hdr]
        simp
      exact hdig c this
    have hcu : (decide (c = u) : Bool) = false := by
      refine decide_eq_false ?_
      intro he
      rw [he] at hc
      rw [hc] at hu
      exact absurd hu (by decide)
    rw [List.dropWhile_cons, if_neg (by simp [hcu])]
    rw [show (c :: tl) = d.reverse from hdr.symm]
    simp

theorem takeWhile_digits {d : List Char} {u : Char}
    (hdig : ∀ c ∈ d, pyDigit c = true) (hu : pyDigit u = false) (suffix : List Char) :
    (d ++ u :: suffix).takeWhile pyDigit = d := by
  induction d with
  | nil => simp [List.takeWhile_cons, hu]
  | cons c d' ih =>
    have hc : pyDigit c = true := hdig c (by simp)
    have ih' := ih (fun c hc => hdig c (List.mem_cons_of_mem _ hc))
    simp [List.takeWhile_cons, hc, ih']

/-- Numeric value of an elapsed-time component capture: the decimal value of
its digit prefix, `0` when the component is absent (an absent component
contributes 0). -/
def compVal (o : Option (List Char)) : Nat :=
  match o with
  | none => 0
  | some l => pyInt (l.takeWhile pyDigit)

theorem timeTail_capGet {t : List Char} {m : Caps} (h : REMatch timeTailRE t m)
    (mp : Caps) (hmp : ∀ pr ∈ mp, pr.1 < 4) :
    (capGet (m ++ mp) 4 = none ∨
      ∃ d, d ≠ [] ∧ (∀ c ∈ d, pyDigit c = true) ∧ capGet (m ++ mp) 4 = some (d ++ ['h', ' '])) ∧
    (capGet (m ++ mp) 5 = none ∨
      ∃ d, d ≠ [] ∧ (∀ c ∈ d, pyDigit c = true) ∧ capGet (m ++ mp) 5 = some (d ++ ['m', ' '])) ∧
    (∃ d, d ≠ [] ∧ (∀ c ∈ d, pyDigit c = true) ∧ capGet (m ++ mp) 6 = some (d ++ ['s'])) := by
  have hmp4 : capGet mp 4 = none :=
    capGet_eq_none (fun pr hpr => by have := hmp pr hpr; omega)
  have hmp5 : capGet mp 5 = none :=
    capGet_eq_none (fun pr hpr => by have := hmp pr hpr; omega)
  obtain ⟨t1, m1, t2, m2, rfl, rfl, h1, h2⟩ := REMatch_seq_inv h
  obtain ⟨rfl, rfl⟩ := REMatch_lit_inv h1
  obtain ⟨t3, m3, t4, m4, rfl, rfl, h3, h4⟩ := REMatch_seq_inv h2
  obtain ⟨t5, m5, t6, m6, rfl, rfl, h5, h6⟩ := REMatch_seq_inv h4
  obtain ⟨t7, m7, t8, m8, rfl, rfl, h7, h8⟩ := REMatch_seq_inv h6
  obtain ⟨t9, m9, t10, m10, rfl, rfl, h9, h10⟩ := REMatch_seq_inv h8
  obtain ⟨t11, m11, t12, m12, rfl, rfl, h11, h12⟩ := REMatch_seq_inv h10
  obtain ⟨rfl, rfl⟩ := REMatch_emp_inv h12
  obtain ⟨m7i, rfl, h7i⟩ := REMatch_grp_inv h7
  obtain ⟨d6, hd6ne, hd6dig, rfl, rfl⟩ := time_component_shape h7i
  obtain ⟨m11i, rfl, h11i⟩ := REMatch_grp_inv h11
  obtain ⟨_, rfl⟩ := REMatch_rep0_inv h11i
  have hopt4 := REMatch_opt_inv h3
  have hopt5 := REMatch_opt_inv h5
  have hopt7 := REMatch_opt_inv h9
  have hm9 : m9 = [] ∨ ∃ v, m9 = [(7, v)] := by
    rcases hopt7 with h' | ⟨rfl, rfl⟩
    · obtain ⟨mi, rfl, hi⟩ := REMatch_grp_inv h'
      obtain ⟨rfl, rfl⟩ := REMatch_lit_inv hi
      exact Or.inr ⟨_, rfl⟩
    · exact Or.inl rfl
  have hm3 : m3 = [] ∨ ∃ d, d ≠ [] ∧ (∀ c ∈ d, pyDigit c = true) ∧ m3 = [(4, d ++ ['h', ' '])] := by
    rcases hopt4 with h' | ⟨rfl, rfl⟩
    · obtain ⟨mi, rfl, hi⟩ := REMatch_grp_inv h'
      obtain ⟨d, hdne, hddig, rfl, rfl⟩ := time_component_shape hi
      exact Or.inr ⟨d, hdne, hddig, rfl⟩
    · exact Or.inl rfl
  have hm5 : m5 = [] ∨ ∃ d, d ≠ [] ∧ (∀ c ∈ d, pyDigit c = true) ∧ m5 = [(5, d ++ ['m', ' '])] := by
    rcases hopt5 with h' | ⟨rfl, rfl⟩
    · obtain ⟨mi, rfl, hi⟩ := REMatch_grp_inv h'
      obtain ⟨d, hdne, hddig, rfl, rfl⟩ := time_component_shape hi
      exact Or.inr ⟨d, hdne, hddig, rfl⟩
    · exact Or.inl rfl
  refine ⟨?_, ?_, ?_⟩
  · rcases hm3 with rfl | ⟨d, hdne, hddig, rfl⟩
    · left
      rcases hm9 with rfl | ⟨v, rfl⟩ <;>
        rcases hm5 with rfl | ⟨d5, _, _, rfl⟩ <;>
        simp [capGet_append, capGet, hmp4]
    · right
      refine ⟨d, hdne, hddig, ?_⟩
      rcases hm9 with rfl | ⟨v, rfl⟩ <;>
        rcases hm5 with rfl | ⟨d5, _, _, rfl⟩ <;>
        simp [capGet_append, capGet, hmp4]
  · rcases hm5 with rfl | ⟨d, hdne, hddig, rfl⟩
    · left
      rcases hm9 with rfl | ⟨v, rfl⟩ <;>
        rcases hm3 with rfl | ⟨d4, _, _, rfl⟩ <;>
        simp [capGet_append, capGet, hmp5]
    · right
      refine ⟨d, hdne, hddig, ?_⟩
      rcases hm9 with rfl | ⟨v, rfl⟩ <;>
        rcases hm3 with rfl | ⟨d4, _, _, rfl⟩ <;>
        simp [capGet_append, capGet, hmp5]
  · refine ⟨d6, hd6ne, hd6dig, ?_⟩
    rcases hm9 with rfl | ⟨v, rfl⟩ <;>
      rcases hm3 with rfl | ⟨d4, _, _, rfl⟩ <;>
      rcases hm5 with rfl | ⟨d5, _, _, rfl⟩ <;>
      simp [capGet_append, capGet]

theorem jobLine_capGet {head : RE} {line : List Char} {caps : Caps}
    (hm : reMatchLine (.seq head timeTailRE) line = some caps)
    (hhead : ∀ g ∈ groupsOf head, g < 4) :
    (capGet caps 4 = none ∨
      ∃ d, d ≠ [] ∧ (∀ c ∈ d, pyDigit c = true) ∧ capGet caps 4 = some (d ++ ['h', ' '])) ∧
    (capGet caps 5 = none ∨
      ∃ d, d ≠ [] ∧ (∀ c ∈ d, pyDigit c = true) ∧ capGet caps 5 = some (d ++ ['m', ' '])) ∧
    (∃ d, d ≠ [] ∧ (∀ c ∈ d, pyDigit c = true) ∧ capGet caps 6 = some (d ++ ['s'])) := by
  unfold reMatchLine at hm
  obtain ⟨t, m, rest, rfl, hmt, hk⟩ := reMatch_sound _ hm
  by_cases hre : rest.isEmpty = true
  · rw [if_pos hre] at hk
    have hcaps : caps = m ++ [] := (Option.some.inj hk).symm
    rw [List.append_nil] at hcaps
    subst hcaps
    obtain ⟨t1, mH, t2, mT, rfl, rfl, hH, hT⟩ := REMatch_seq_inv hmt
    exact timeTail_capGet hT mH (fun pr hpr => hhead pr.1 (REMatch_keys hH pr hpr))
  · rw [if_neg hre] at hk
    exact absurd hk (by simp)

theorem time_contrib_space {o : Option (List Char)} {u : Char}
    (hu_w : pyWhite u = false) (hu_d : pyDigit u = false)
    (hshape : o = none ∨ ∃ d, d ≠ [] ∧ (∀ c ∈ d, pyDigit c = true) ∧ o = some (d ++ [u, ' ']))
    (x f : Nat) :
    (if truthy o = true then x + pyInt (pyRstrip u (pyStrip (o.getD []))) * f else x) =
      x + f * compVal o := by
  rcases hshape with rfl | ⟨d, hdne, hdig, rfl⟩
  · simp [truthy, compVal]
  · have htr : truthy (some (d ++ [u, ' '])) = true := by simp [truthy]
    rw [if_pos htr, Option.getD_some]
    rw [pyStrip_digits_unit_space hdne hdig hu_w, rstrip_digits hdne hdig hu_d]
    have htw : (d ++ [u, ' ']).takeWhile pyDigit = d :=
      takeWhile_digits hdig hu_d [' ']
    simp only [compVal, htw]
    ring

theorem time_contrib_nospace {o : Option (List Char)} {u : Char}
    (hu_w : pyWhite u = false) (hu_d : pyDigit u = false)
    (hshape : ∃ d, d ≠ [] ∧ (∀ c ∈ d, pyDigit c = true) ∧ o = some (d ++ [u]))
    (x : Nat) :
    (if truthy o = true then x + pyInt (pyRstrip u (pyStrip (o.getD []))) else x) =
      x + compVal o := by
  obtain ⟨d, hdne, hdig, rfl⟩ := hshape
  have htr : truthy (some (d ++ [u])) = true := by simp [truthy]
  rw [if_pos htr, Option.getD_some]
  rw [pyStrip_digits_unit hdne hdig hu_w, rstrip_digits hdne hdig hu_d]
  have htw : (d ++ [u]).takeWhile pyDigit = d := takeWhile_digits hdig hu_d []
  simp only [compVal, htw]

theorem buildJob_total {caps : Caps} {job : PJob}
    (h4 : capGet caps 4 = none ∨
      ∃ d, d ≠ [] ∧ (∀ c ∈ d, pyDigit c = true) ∧ capGet caps 4 = some (d ++ ['h', ' ']))
    (h5 : capGet caps 5 = none ∨
      ∃ d, d ≠ [] ∧ (∀ c ∈ d, pyDigit c = true) ∧ capGet caps 5 = some (d ++ ['m', ' ']))
    (h6 : ∃ d, d ≠ [] ∧ (∀ c ∈ d, pyDigit c = true) ∧ capGet caps 6 = some (d ++ ['s']))
    (hok : buildJob caps = .ok job) :
    job.total_sec =
      3600 * compVal (capGet caps 4) + 60 * compVal (capGet caps 5) + compVal (capGet caps 6) := by
  unfold buildJob at hok
  by_cases hr : ((capGet caps 8).getD []).length > 0
  · rw [if_pos hr] at hok
    exact absurd hok (by simp)
  · rw [if_neg hr] at hok
    have hjob := (Except.ok.inj hok).symm
    have e4 := time_contrib_space (o := capGet caps 4) (u := 'h') (by decide) (by decide) h4 0 3600
    have e5 := time_contrib_space (o := capGet caps 5) (u := 'm') (by decide) (by decide) h5
      (0 + 3600 * compVal (capGet caps 4)) 60
    have e6 := time_contrib_nospace (o := capGet caps 6) (u := 's') (by decide) (by decide) h6
      (0 + 3600 * compVal (capGet caps 4) + 60 * compVal (capGet caps 5))
    rw [hjob]
    simp only [e4] at e5 ⊢
    rw [e5, e6]
    ring

/-- Total seconds of each job of a successfully parsed run, `none` when the
message did not parse to a run or raised. -/
def jobTimesOf (r : Except String (Option PRun)) : Option (List Nat) :=
  match r with
  | .ok (some run) => some (run.jobs.map (fun j => j.total_sec))
  | _ => none

/-- Job line used for the concrete duration instances. -/
def c6line1 : List Char :=
  "- https://ci.example.net/jenkins/job/test-check/3/ : SUCCESS in 1h 2m 3s".toList

/-- Job line with only a seconds component. -/
def c6line2 : List Char :=
  "- https://ci.example.net/jenkins/job/test-check/3/ : SUCCESS in 45s".toList

/-- Gerrit message wrapping `c6line1`. -/
def c6msg1 : List Char :=
  ("Patch Set 1: Verified+1\n\nBuild succeeded\n\n" ++
    "- https://ci.example.net/jenkins/job/test-check/3/ : SUCCESS in 1h 2m 3s").toList

/-- Gerrit message wrapping `c6line2`. -/
def c6msg2 : List Char :=
  ("Patch Set 1: Verified+1\n\nBuild succeeded\n\n" ++
    "- https://ci.example.net/jenkins/job/test-check/3/ : SUCCESS in 45s").toList

/-- C6: for every job line matched by either job-line grammar, the parsed
duration in seconds equals hours·3600 + minutes·60 + seconds, an absent hours
or minutes component contributing 0 (`compVal` is the numeric value of a
component capture, 0 when absent); in particular a job line reporting
"1h 2m 3s" yields 3723 and one reporting "45s" yields 45. -/
theorem c6_duration_normalization :
    (∀ (line : List Char) (caps : Caps) (job : PJob),
      reMatchLine ciJobV1RE line = some caps → buildJob caps = .ok job →
      job.total_sec =
        3600 * compVal (capGet caps 4) + 60 * compVal (capGet caps 5) +
          compVal (capGet caps 6)) ∧
    (∀ (line : List Char) (caps : Caps) (job : PJob),
      reMatchLine ciJobV2RE line = some caps → buildJob caps = .ok job →
      job.total_sec =
        3600 * compVal (capGet caps 4) + 60 * compVal (capGet caps 5) +
          compVal (capGet caps 6)) ∧
    jobTimesOf (parseChangeMessages c6msg1 gerritCiRunRE) = some [3723] ∧
    jobTimesOf (parseChangeMessages c6msg2 gerritCiRunRE) = some [45] := by
  refine ⟨?_, ?_, by rfl, by rfl⟩
  · intro line caps job hm hok
    obtain ⟨h4, h5, h6⟩ := jobLine_capGet hm (by decide)
    exact buildJob_total h4 h5 h6 hok
  · intro line caps job hm hok
    obtain ⟨h4, h5, h6⟩ := jobLine_capGet hm (by decide)
    exact buildJob_total h4 h5 h6 hok

/-- Captures of the v1 match of `c6line1`. -/
def c6caps1 : Caps :=
  [(8, []), (6, "3s".toList), (5, "2m ".toList), (4, "1h ".toList),
   (3, "SUCCESS".toList), (2, "test-check".toList),
   (1, "ci.example.net/jenkins".toList), (0, "https".toList)]

/-- The job dict built from `c6caps1`. -/
def c6job1 : PJob :=
  { name := "test-check".toList, result := "SUCCESS".toList,
    total_sec := 3723, non_voting := none }

theorem c6_duration_normalization_witness :
    reMatchLine ciJobV1RE c6line1 = some c6caps1 ∧ buildJob c6caps1 = .ok c6job1 ∧
      c6job1.total_sec =
        3600 * compVal (capGet c6caps1 4) + 60 * compVal (capGet c6caps1 5) +
          compVal (capGet c6caps1 6) :=
  ⟨rfl, rfl, c6_duration_normalization.1 c6line1 c6caps1 c6job1 rfl rfl⟩

/-- C7: for every input text that does not match the configured run grammar
from its start, `__parse_change_messages` returns the empty dict and never
raises (this covers both `parse_ci_job_comments` and `parse_pr_message`,
which differ only in the run pattern passed). -/
theorem c7_nonmatching_parse_returns_empty (runRe : RE) (message : List Char)
    (h : reMatchTop runRe message = none) :
    parseChangeMessages message runRe = .ok none := by
  unfold parseChangeMessages
  rw [h]

/-- Non-CI comment used as the C7 instance. -/
def c7msg : List Char := "@aaaa @bbbb @ccccc xxxxxxxx".toList

theorem c7_nonmatching_parse_returns_empty_witness :
    parseChangeMessages c7msg gerritCiRunRE = .ok none ∧
      parseChangeMessages c7msg prCiRunRE = .ok none :=
  ⟨c7_nonmatching_parse_returns_empty gerritCiRunRE c7msg rfl,
   c7_nonmatching_parse_returns_empty prCiRunRE c7msg rfl⟩

theorem buildJob_error_of_rest {c : Caps}
    (h : ((capGet c 8).getD []).isEmpty = false) : ∃ e, buildJob c = .error e := by
  unfold buildJob
  have hlen : ((capGet c 8).getD []).length > 0 := by
    cases hl : (capGet c 8).getD [] with
    | nil => rw [hl] at h; simp at h
    | cons a l => simp [hl]
  rw [if_pos hlen]
  exact ⟨_, rfl⟩

theorem buildJob_ok_of_rest {c : Caps}
    (h : ((capGet c 8).getD []).isEmpty = true) : ∃ j, buildJob c = .ok j := by
  unfold buildJob
  have hlen : ¬ ((capGet c 8).getD []).length > 0 := by
    cases hl : (capGet c 8).getD [] with
    | nil => simp
    | cons a l => rw [hl] at h; simp at h
  rw [if_neg hlen]
  exact ⟨_, rfl⟩

theorem buildJobs_error_of_any {l : List Caps}
    (h : l.any (fun c => !((capGet c 8).getD []).isEmpty) = true) :
    ∃ e, buildJobs l = .error e := by
  induction l with
  | nil => simp at h
  | cons c rest ih =>
    rw [List.any_cons] at h
    cases hbad : (!((capGet c 8).getD []).isEmpty) with
    | true =>
      obtain ⟨e, he⟩ := buildJob_error_of_rest (by simpa using hbad)
      exact ⟨e, by simp [buildJobs, he]⟩
    | false =>
      rw [hbad, Bool.false_or] at h
      obtain ⟨j, hj⟩ := buildJob_ok_of_rest (by simpa using hbad)
      obtain ⟨e, he⟩ := ih h
      exact ⟨e, by simp [buildJobs, hj, he]⟩

/-- C8: for every text matching the run grammar whose jobs block contains a
job line matched with non-empty unrecognized trailing content (a non-empty
`the_rest` capture, group 8) after the optional non-voting marker, the parse
raises a fatal error rather than silently ignoring the line. -/
theorem c8_trailing_content_raises (runRe : RE) (message : List Char) (caps : Caps)
    (hm : reMatchTop runRe message = some caps)
    (hbad : (jobMatchesOf ((capGet caps 3).getD [])).any
      (fun c => !((capGet c 8).getD []).isEmpty) = true) :
    ∃ e, parseChangeMessages message runRe = .error e := by
  obtain ⟨e, he⟩ := buildJobs_error_of_any hbad
  exact ⟨e, by simp [parseChangeMessages, hm, he]⟩

/-- Message whose single job line carries trailing junk. -/
def c8msg : List Char :=
  "Patch Set 2: Verified+1\n\nBuild succeeded\n\n- http://h/job/j/1/ : OK in 3s junk".toList

/-- Run-level captures of `c8msg`. -/
def c8caps : Caps :=
  [(3, "- http://h/job/j/1/ : OK in 3s junk".toList),
   (2, "succeeded".toList), (1, "+1".toList), (0, "2".toList)]

theorem c8_trailing_content_raises_witness :
    ∃ e, parseChangeMessages c8msg gerritCiRunRE = .error e :=
  c8_trailing_content_raises gerritCiRunRE c8msg c8caps rfl rfl

/-- The fields of one raw Gerrit change that `GerritChanges.gather` inspects;
`updated` is the parsed `updated_dt` (construction of the full `GerritChange`
with revisions and messages is orthogonal to the gather control flow). -/
structure GRaw where
  id : String
  project : String
  branch : String
  updated : Nat
deriving DecidableEq, Repr

/-- Lookup in the accumulated change dict (`change.long_id in self.changes`). -/
def lookupId : List (String × GRaw) → String → Option GRaw
  | [], _ => none
  | (k, v) :: rest, i => if k = i then some v else lookupId rest i

/-- The guard `if self.max_changes and len(self.changes) >= self.max_changes`:
Python's `and` makes a `max_changes` of `None` — and also of `0`, which is
falsy — impose no cap at all. -/
def maxReached (maxChanges : Option Nat) (count : Nat) : Bool :=
  match maxChanges with
  | none => false
  | some m => if m = 0 then false else decide (count ≥ m)

/-- The `for change_json in results` loop body of `GerritChanges.gather`:
project filter, branch filter, duplicate skip, cap check, cutoff check, store.
The returned flag records whether the loop broke out (after popping
`_more_changes`), which terminates the whole gather. -/
def processPage (projects branches : List String) (startDt : Nat) (maxChanges : Option Nat) :
    List (String × GRaw) → List GRaw → List (String × GRaw) × Bool
  | stored, [] => (stored, false)
  | stored, c :: rest =>
    if !projects.isEmpty && !projects.contains c.project then
      processPage projects branches startDt maxChanges stored rest
    else if !branches.isEmpty && !branches.contains c.branch then
      processPage projects branches startDt maxChanges stored rest
    else if (lookupId stored c.id).isSome then
      processPage projects branches startDt maxChanges stored rest
    else if maxReached maxChanges stored.length then
      (stored, true)
    else if c.updated < startDt then
      (stored, true)
    else
      processPage projects branches startDt maxChanges (stored ++ [(c.id, c)]) rest

/-- Result of a gather: the accumulated dict on normal termination (`none`
models the uncaught `IndexError` raised by `results[-1]` on an empty page),
plus the number of page requests issued. -/
structure GatherOut where
  result : Option (List (String × GRaw))
  pages : Nat
deriving DecidableEq, Repr

/-- The `while results[-1].get('_more_changes')` loop of `GerritChanges.gather`
over a backend holding `backend` changes in server order: the page at offset
`queryStart` is the next `querySize` entries, and Gerrit sets `_more_changes`
on the last element of a page exactly when entries remain beyond it.  `fuel`
is structural recursion fuel; every call from `gatherRun` supplies enough
fuel, since each iteration advances `queryStart` by `querySize ≥ 1`. -/
def gatherLoop (backend : List GRaw) (projects branches : List String)
    (startDt querySize : Nat) (maxChanges : Option Nat) :
    Nat → List (String × GRaw) → Nat → GatherOut
  | 0, _, _ => { result := none, pages := 0 }
  | fuel + 1, stored, queryStart =>
    let page := (backend.drop queryStart).take querySize
    if page.isEmpty then
      { result := none, pages := 1 }
    else
      let r := processPage projects branches startDt maxChanges stored page
      if r.2 then { result := some r.1, pages := 1 }
      else if queryStart + querySize < backend.length then
        let out := gatherLoop backend projects branches startDt querySize maxChanges
          fuel r.1 (queryStart + querySize)
        { result := out.result, pages := out.pages + 1 }
      else { result := some r.1, pages := 1 }

/-- `GerritChanges.gather()` run to completion, starting at offset 0 with an
empty accumulated dict. -/
def gatherRun (backend : List GRaw) (projects branches : List String)
    (startDt querySize : Nat) (maxChanges : Option Nat) : GatherOut :=
  gatherLoop backend projects branches startDt querySize maxChanges
    (backend.length + 1) [] 0

/-- The accumulated change dict produced by `GerritChanges.gather()`; `none`
models an uncaught exception. -/
def gatherGerrit (backend : List GRaw) (projects branches : List String)
    (startDt querySize : Nat) (maxChanges : Option Nat) :
    Option (List (String × GRaw)) :=
  (gatherRun backend projects branches startDt querySize maxChanges).result

theorem lookupId_eq_none_iff (st : List (String × GRaw)) (i : String) :
    lookupId st i = none ↔ i ∉ st.map Prod.fst := by
  induction st with
  | nil => simp [lookupId]
  | cons pr rest ih =>
    obtain ⟨k, v⟩ := pr
    by_cases hk : k = i
    · subst hk
      simp [lookupId]
    · simp [lookupId, hk, ih, Ne.symm hk]

theorem lookupId_append_left {st : List (String × GRaw)} {i : String} {v : GRaw}
    (h : lookupId st i = some v) (l2 : List (String × GRaw)) :
    lookupId (st ++ l2) i = some v := by
  induction st with
  | nil => simp [lookupId] at h
  | cons pr rest ih =>
    obtain ⟨k, w⟩ := pr
    by_cases hk : k = i
    · subst hk
      simp only [lookupId, if_pos rfl] at h ⊢
      exact h
    · simp only [lookupId, if_neg hk] at h ⊢
      exact ih h

theorem lookupId_append_none {st : List (String × GRaw)} {i : String}
    (h : lookupId st i = none) (l2 : List (String × GRaw)) :
    lookupId (st ++ l2) i = lookupId l2 i := by
  induction st with
  | nil => simp
  | cons pr rest ih =>
    obtain ⟨k, w⟩ := pr
    by_cases hk : k = i
    · subst hk
      simp [lookupId] at h
    · simp only [List.cons_append, lookupId, if_neg hk] at h ⊢
      exact ih h

theorem takeWhile_append_sat {α : Type} {q : α → Bool} {a : List α}
    (ha : ∀ c ∈ a, q c = true) (b : List α) :
    (a ++ b).takeWhile q = a ++ b.takeWhile q := by
  induction a with
  | nil => simp
  | cons x xs ih =>
    have hx : q x = true := ha x (by simp)
    have ih' := ih (fun c hc => ha c (List.mem_cons_of_mem _ hc))
    simp [List.takeWhile_cons, hx, ih']

theorem takeWhile_eq_self_of_sat {α : Type} {q : α → Bool} {l : List α}
    (h : ∀ c ∈ l, q c = true) : l.takeWhile q = l := by
  induction l with
  | nil => simp
  | cons x xs ih =>
    have hx : q x = true := h x (by simp)
    have ih' := ih (fun c hc => h c (List.mem_cons_of_mem _ hc))
    simp [List.takeWhile_cons, hx, ih']

theorem takeWhile_take_of_not_all {α : Type} {q : α → Bool} :
    ∀ (l : List α) (n : Nat), ((l.take n).all q) = false →
    (l.take n).takeWhile q = l.takeWhile q := by
  intro l
  induction l with
  | nil => intro n h; simp at h
  | cons x xs ih =>
    intro n h
    cases n with
    | zero => simp at h
    | succ n' =>
      rw [List.take_succ_cons] at h ⊢
      by_cases hx : q x = true
      · rw [List.all_cons, hx, Bool.true_and] at h
        simp [List.takeWhile_cons, hx, ih n' h]
      · have hx' : q x = false := by simpa using hx
        simp [List.takeWhile_cons, hx']

theorem processPage_cons_free (t : Nat) (stored : List (String × GRaw)) (c : GRaw)
    (rest : List GRaw) (hlk : lookupId stored c.id = none) :
    processPage [] [] t none stored (c :: rest) =
      if c.updated < t then (stored, true)
      else processPage [] [] t none (stored ++ [(c.id, c)]) rest := by
  simp [processPage, hlk, maxReached]

theorem processPage_no_filter (t : Nat) :
    ∀ (page : List GRaw) (stored : List (String × GRaw)),
    (∀ c ∈ page, lookupId stored c.id = none) →
    (page.map GRaw.id).Nodup →
    processPage [] [] t none stored page =
      (stored ++ (page.takeWhile (fun c => decide (t ≤ c.updated))).map (fun c => (c.id, c)),
        !(page.all (fun c => decide (t ≤ c.updated)))) := by
  intro page
  induction page with
  | nil => intro stored _ _; simp [processPage]
  | cons c rest ih =>
    intro stored hlk hnd
    rw [processPage_cons_free t stored c rest (hlk c (by simp))]
    by_cases hc : c.updated < t
    · rw [if_pos hc]
      have hq : (decide (t ≤ c.updated) : Bool) = false := by
        simp
        omega
      simp [List.takeWhile_cons, List.all_cons, hq]
    · rw [if_neg hc]
      have hq : (decide (t ≤ c.updated) : Bool) = true := by
        simp
        omega
      have hndr : (rest.map GRaw.id).Nodup := by
        rw [List.map_cons, List.nodup_cons] at hnd
        exact hnd.2
      have hcid : c.id ∉ rest.map GRaw.id := by
        rw [List.map_cons, List.nodup_cons] at hnd
        exact hnd.1
      have hlk' : ∀ c' ∈ rest, lookupId (stored ++ [(c.id, c)]) c'.id = none := by
        intro c' hc'
        rw [lookupId_append_none (hlk c' (List.mem_cons_of_mem _ hc'))]
        have hne : c.id ≠ c'.id := by
          intro he
          exact hcid (he ▸ List.mem_map_of_mem GRaw.id hc')
        simp [lookupId, hne]
      rw [ih (stored ++ [(c.id, c)]) hlk' hndr]
      simp [List.takeWhile_cons, List.all_cons, hq]

theorem keys_map_pair (xs : List GRaw) :
    (xs.map (fun c => (c.id, c))).map Prod.fst = xs.map GRaw.id := by
  induction xs with
  | nil => rfl
  | cons x l ih => simp [ih]

theorem gatherLoop_succ_ne (backend : List GRaw) (ps bs : List String)
    (t qs : Nat) (mc : Option Nat) (fuel : Nat) (stored : List (String × GRaw)) (s : Nat)
    (hne : ((backend.drop s).take qs) ≠ []) :
    gatherLoop backend ps bs t qs mc (fuel + 1) stored s =
      (if (processPage ps bs t mc stored ((backend.drop s).take qs)).2 then
        { result := some (processPage ps bs t mc stored ((backend.drop s).take qs)).1,
          pages := 1 }
      else if s + qs < backend.length then
        { result := (gatherLoop backend ps bs t qs mc fuel
            (processPage ps bs t mc stored ((backend.drop s).take qs)).1 (s + qs)).result,
          pages := (gatherLoop backend ps bs t qs mc fuel
            (processPage ps bs t mc stored ((backend.drop s).take qs)).1 (s + qs)).pages + 1 }
      else
        { result := some (processPage ps bs t mc stored ((backend.drop s).take qs)).1,
          pages := 1 }) := by
  have hemp : ((backend.drop s).take qs).isEmpty = false := by
    cases h : (backend.drop s).take qs with
    | nil => exact absurd h hne
    | cons x xs => rfl
  simp only [gatherLoop, hemp, Bool.false_eq_true, if_false]

theorem gatherLoop_prefix (backend : List GRaw) (t querySize : Nat)
    (hqs : 1 ≤ querySize) (hnd : (backend.map GRaw.id).Nodup) :
    ∀ fuel s, backend.length - s < fuel → s < backend.length →
    (∀ c ∈ backend.take s, t ≤ c.updated) →
    (gatherLoop backend [] [] t querySize none fuel
      ((backend.take s).map (fun c => (c.id, c))) s).result =
    some ((backend.takeWhile (fun c => decide (t ≤ c.updated))).map (fun c => (c.id, c))) := by
  intro fuel
  induction fuel with
  | zero => intro s hf _ _; omega
  | succ fuel ih =>
    intro s hf hs hsat
    have hlen_drop : (backend.drop s).length = backend.length - s := List.length_drop s backend
    have hdne : backend.drop s ≠ [] := by
      intro h
      have := congrArg List.length h
      rw [hlen_drop] at this
      simp at this
      omega
    have hpage : (backend.drop s).take querySize ≠ [] := by
      cases hd : backend.drop s with
      | nil => exact absurd hd hdne
      | cons x xs =>
        cases querySize with
        | zero => omega
        | succ n => simp [hd]
    have hsplit : backend.map GRaw.id =
        (backend.take s).map GRaw.id ++ (backend.drop s).map GRaw.id := by
      rw [← List.map_append, List.take_append_drop]
    have hdisj : ∀ i ∈ (backend.drop s).map GRaw.id, i ∉ (backend.take s).map GRaw.id := by
      have hnd' := hnd
      rw [hsplit, List.nodup_append] at hnd'
      intro i hi hmem
      exact hnd'.2.2 hmem hi
    have hlk : ∀ c ∈ (backend.drop s).take querySize,
        lookupId ((backend.take s).map (fun c => (c.id, c))) c.id = none := by
      intro c hc
      rw [lookupId_eq_none_iff, keys_map_pair]
      exact hdisj c.id
        (List.mem_map_of_mem GRaw.id (List.take_subset _ _ hc))
    have hndp : (((backend.drop s).take querySize).map GRaw.id).Nodup := by
      have hsub : List.Sublist ((backend.drop s).take querySize) backend :=
        (List.take_sublist _ _).trans (List.drop_sublist _ _)
      exact List.Nodup.sublist (hsub.map GRaw.id) hnd
    rw [gatherLoop_succ_ne backend [] [] t querySize none fuel _ s hpage]
    rw [processPage_no_filter t _ _ hlk hndp]
    by_cases hall : (((backend.drop s).take querySize).all
        (fun c => decide (t ≤ c.updated))) = true
    · have hallmem : ∀ c ∈ (backend.drop s).take querySize, t ≤ c.updated := by
        intro c hc
        have := (List.all_eq_true.mp hall) c hc
        simpa using this
      rw [hall]
      simp only [Bool.not_true, Bool.false_eq_true, if_false]
      by_cases hmore : s + querySize < backend.length
      · rw [if_pos hmore]
        have hstored : ((backend.take s).map (fun c => (c.id, c)) ++
            (((backend.drop s).take querySize).takeWhile
              (fun c => decide (t ≤ c.updated))).map (fun c => (c.id, c))) =
            ((backend.take (s + querySize)).map (fun c => (c.id, c))) := by
          rw [takeWhile_eq_self_of_sat (by intro c hc; simpa using hallmem c hc)]
          rw [← List.map_append, ← List.take_add]
        rw [hstored]
        have hsat' : ∀ c ∈ backend.take (s + querySize), t ≤ c.updated := by
          intro c hc
          rw [List.take_add] at hc
          rcases List.mem_append.mp hc with h | h
          · exact hsat c h
          · exact hallmem c h
        exact ih (s + querySize) (by omega) hmore hsat'
      · rw [if_neg hmore]
        have hpage_all : (backend.drop s).take querySize = backend.drop s := by
          apply List.take_of_length_le
          rw [hlen_drop]
          omega
        rw [hpage_all] at hallmem ⊢
        have hba : ∀ c ∈ backend, t ≤ c.updated := by
          intro c hc
          rw [← List.take_append_drop s backend] at hc
          rcases List.mem_append.mp hc with h | h
          · exact hsat c h
          · exact hallmem c h
        rw [takeWhile_eq_self_of_sat (by intro c hc; simpa using hallmem c hc)]
        have hbw : backend.takeWhile (fun c => decide (t ≤ c.updated)) = backend :=
          takeWhile_eq_self_of_sat (by intro c hc; simpa using hba c hc)
        rw [hbw, ← List.map_append, List.take_append_drop]
    · have hall' : (((backend.drop s).take querySize).all
          (fun c => decide (t ≤ c.updated))) = false := by simpa using hall
      rw [hall']
      simp only [Bool.not_false, if_true]
      have htw : backend.takeWhile (fun c => decide (t ≤ c.updated)) =
          backend.take s ++ ((backend.drop s).take querySize).takeWhile
            (fun c => decide (t ≤ c.updated)) := by
        conv =>
          lhs
          rw [← List.take_append_drop s backend]
        rw [takeWhile_append_sat (by intro c hc; simpa using hsat c hc)]
        rw [takeWhile_take_of_not_all _ _ hall']
      rw [htw, List.map_append]

/-- C2: over a backend stream sorted by non-increasing `updated_dt`, with no
project/branch filtering, no item cap, distinct change ids, at least one
change and a positive page size, `gather` stores exactly the prefix of
entities with `updated_dt >= start_dt`: the first entity strictly older than
the cutoff ends the whole gather without being stored, nothing after it is
stored, and every qualifying entity before it is stored. -/
theorem c2_gather_cutoff_prefix (backend : List GRaw) (startDt querySize : Nat)
    (hne : backend ≠ []) (hqs : 1 ≤ querySize)
    (_hsorted : backend.Pairwise (fun a b => b.updated ≤ a.updated))
    (hnd : (backend.map GRaw.id).Nodup) :
    gatherGerrit backend [] [] startDt querySize none =
      some ((backend.takeWhile (fun c => decide (startDt ≤ c.updated))).map
        (fun c => (c.id, c))) := by
  unfold gatherGerrit gatherRun
  have h0 : 0 < backend.length := List.length_pos.mpr hne
  have h := gatherLoop_prefix backend startDt querySize hqs hnd
    (backend.length + 1) 0 (by omega) h0 (by simp)
  simpa using h

/-- C1: a gather against an endpoint whose response decodes to the empty
result list does not return zero entities: `results[-1]` on the decoded empty
page raises an uncaught `IndexError` (modelled as `none`), so the gather
terminates abnormally instead of returning normally with zero stored
entities. -/
theorem c1_empty_response_gather_raises (projects branches : List String)
    (startDt querySize : Nat) (maxChanges : Option Nat) :
    gatherGerrit [] projects branches startDt querySize maxChanges = none := by
  cases querySize with
  | zero => rfl
  | succ n => rfl

theorem gatherLoop_invariant (backend : List GRaw) (ps bs : List String)
    (t qs : Nat) (mc : Option Nat) (P : List (String × GRaw) → Prop)
    (hstep : ∀ stored page, P stored → P (processPage ps bs t mc stored page).1) :
    ∀ (fuel : Nat) (stored : List (String × GRaw)) (s : Nat) (l : List (String × GRaw)),
    P stored → (gatherLoop backend ps bs t qs mc fuel stored s).result = some l → P l := by
  intro fuel
  induction fuel with
  | zero => intro stored s l _ hres; simp [gatherLoop] at hres
  | succ fuel ih =>
    intro stored s l hP hres
    by_cases hemp : ((backend.drop s).take qs) = []
    · have hemptrue : ((backend.drop s).take qs).isEmpty = true := by
        rw [hemp]; rfl
      simp [gatherLoop, hemptrue] at hres
    · rw [gatherLoop_succ_ne backend ps bs t qs mc fuel stored s hemp] at hres
      by_cases hstop : (processPage ps bs t mc stored ((backend.drop s).take qs)).2 = true
      · rw [if_pos hstop] at hres
        simp only [Option.some.injEq] at hres
        exact hres ▸ hstep stored _ hP
      · rw [if_neg hstop] at hres
        by_cases hmore : s + qs < backend.length
        · rw [if_pos hmore] at hres
          exact ih _ _ l (hstep stored _ hP) hres
        · rw [if_neg hmore] at hres
          simp only [Option.some.injEq] at hres
          exact hres ▸ hstep stored _ hP

theorem processPage_step_nodup (ps bs : List String) (t : Nat) (mc : Option Nat) :
    ∀ (page : List GRaw) (stored : List (String × GRaw)),
    (stored.map Prod.fst).Nodup → ((processPage ps bs t mc stored page).1.map Prod.fst).Nodup := by
  intro page
  induction page with
  | nil => intro stored h; exact h
  | cons c rest ih =>
    intro stored h
    simp only [processPage]
    split_ifs with h1 h2 h3 h4 h5
    · exact ih stored h
    · exact ih stored h
    · exact ih stored h
    · exact h
    · exact h
    · have hnone : lookupId stored c.id = none := by
        cases hl : lookupId stored c.id with
        | none => rfl
        | some v => rw [hl] at h3; simp at h3
      have hnotmem := (lookupId_eq_none_iff _ _).mp hnone
      apply ih
      rw [List.map_append]
      refine List.Nodup.append h (by simp) ?_
      intro a ha hb
      simp only [List.map_cons, List.map_nil, List.mem_singleton] at hb
      exact hnotmem (hb ▸ ha)

theorem processPage_step_mono (ps bs : List String) (t : Nat) (mc : Option Nat)
    (i : String) (v : GRaw) :
    ∀ (page : List GRaw) (stored : List (String × GRaw)),
    lookupId stored i = some v → lookupId (processPage ps bs t mc stored page).1 i = some v := by
  intro page
  induction page with
  | nil => intro stored h; exact h
  | cons c rest ih =>
    intro stored h
    simp only [processPage]
    split_ifs with h1 h2 h3 h4 h5
    · exact ih stored h
    · exact ih stored h
    · exact ih stored h
    · exact h
    · exact h
    · exact ih _ (lookupId_append_left h _)

theorem processPage_step_len (ps bs : List String) (t : Nat) (m : Nat) (hm : 1 ≤ m) :
    ∀ (page : List GRaw) (stored : List (String × GRaw)),
    stored.length ≤ m → (processPage ps bs t (some m) stored page).1.length ≤ m := by
  intro page
  induction page with
  | nil => intro stored h; exact h
  | cons c rest ih =>
    intro stored h
    simp only [processPage]
    split_ifs with h1 h2 h3 h4 h5
    · exact ih stored h
    · exact ih stored h
    · exact ih stored h
    · exact h
    · exact h
    · apply ih
      have hlt : stored.length < m := by
        simp only [maxReached] at h4
        rw [if_neg (by omega)] at h4
        simp at h4
        omega
      simp only [List.length_append, List.length_cons, List.length_nil]
      omega

/-- C4: duplicate ids across pages never produce more than one stored entity
per long_id — any successful gather yields a dict with pairwise-distinct
keys — and a previously stored entity is never replaced: both the page loop
and the whole pagination loop preserve every existing binding unchanged. -/
theorem c4_dedup_first_stored :
    (∀ (backend : List GRaw) (ps bs : List String) (t qs : Nat) (mc : Option Nat)
      (l : List (String × GRaw)),
      gatherGerrit backend ps bs t qs mc = some l → (l.map Prod.fst).Nodup) ∧
    (∀ (ps bs : List String) (t : Nat) (mc : Option Nat)
      (stored : List (String × GRaw)) (page : List GRaw) (i : String) (v : GRaw),
      lookupId stored i = some v →
      lookupId (processPage ps bs t mc stored page).1 i = some v) ∧
    (∀ (backend : List GRaw) (ps bs : List String) (t qs : Nat) (mc : Option Nat)
      (fuel : Nat) (stored : List (String × GRaw)) (s : Nat) (i : String) (v : GRaw)
      (l : List (String × GRaw)),
      lookupId stored i = some v →
      (gatherLoop backend ps bs t qs mc fuel stored s).result = some l →
      lookupId l i = some v) := by
  refine ⟨?_, ?_, ?_⟩
  · intro backend ps bs t qs mc l hres
    exact gatherLoop_invariant backend ps bs t qs mc
      (fun st => (st.map Prod.fst).Nodup)
      (fun stored page hP => processPage_step_nodup ps bs t mc page stored hP)
      (backend.length + 1) [] 0 l (by simp) hres
  · intro ps bs t mc stored page i v h
    exact processPage_step_mono ps bs t mc i v page stored h
  · intro backend ps bs t qs mc fuel stored s i v l h hres
    exact gatherLoop_invariant backend ps bs t qs mc
      (fun st => lookupId st i = some v)
      (fun stored page hP => processPage_step_mono ps bs t mc i v page stored hP)
      fuel stored s l h hres

/-- A change updated at 30, newest in the sample backend. -/
def gA : GRaw := { id := "a", project := "p", branch := "master", updated := 30 }

/-- A change updated at 20. -/
def gB : GRaw := { id := "b", project := "p", branch := "master", updated := 20 }

/-- A change updated at 10, oldest in the sample backend. -/
def gC : GRaw := { id := "c", project := "p", branch := "master", updated := 10 }

/-- A second raw entity carrying the same long_id as `gA`. -/
def gDupA : GRaw := { id := "a", project := "q", branch := "master", updated := 25 }

theorem c2_gather_cutoff_prefix_witness :
    gatherGerrit [gA, gB, gC] [] [] 15 2 none =
      some (([gA, gB, gC].takeWhile (fun c => decide (15 ≤ c.updated))).map
        (fun c => (c.id, c))) :=
  c2_gather_cutoff_prefix [gA, gB, gC] 15 2 (by decide) (by decide) (by decide) (by decide)

theorem c4_dedup_first_stored_witness :
    (([("a", gA)] : List (String × GRaw)).map Prod.fst).Nodup ∧
      lookupId (processPage [] [] 0 none [("a", gA)] [gDupA]).1 "a" = some gA :=
  ⟨c4_dedup_first_stored.1 [gA, gDupA] [] [] 0 2 none [("a", gA)] rfl,
   c4_dedup_first_stored.2.1 [] [] 0 none [("a", gA)] [gDupA] "a" gA rfl⟩

/-- C5 counterexample: with `max_changes` set to `0`, the gather stores one
entity — more than the cap — because Python's `if self.max_changes and ...`
treats a zero cap as falsy and so as no cap at all. -/
theorem c5_maxzero_counterexample :
    gatherGerrit [gA] [] [] 0 100 (some 0) = some [("a", gA)] ∧
      ¬ (([("a", gA)] : List (String × GRaw)).length ≤ 0) :=
  ⟨rfl, by decide⟩

/-- C5 (amended): when `max_changes` is set to a positive value, gather never
stores more than that many entities; with `max_changes = 1` and two qualifying
entities in one page, exactly one is stored and the page scan stops without
requesting further pages (one page request instead of the two made without
the cap). -/
theorem c5_max_items_cap :
    (∀ (backend : List GRaw) (ps bs : List String) (t qs m : Nat)
      (l : List (String × GRaw)),
      1 ≤ m → gatherGerrit backend ps bs t qs (some m) = some l → l.length ≤ m) ∧
    gatherRun [gA, gB, gC] [] [] 0 2 (some 1) =
      { result := some [("a", gA)], pages := 1 } ∧
    (gatherRun [gA, gB, gC] [] [] 0 2 none).pages = 2 := by
  refine ⟨?_, rfl, rfl⟩
  intro backend ps bs t qs m l hm hres
  exact gatherLoop_invariant backend ps bs t qs (some m)
    (fun st => st.length ≤ m)
    (fun stored page hP => processPage_step_len ps bs t m hm page stored hP)
    (backend.length + 1) [] 0 l (by simp) hres

theorem c5_max_items_cap_witness :
    ([("a", gA)] : List (String × GRaw)).length ≤ 1 :=
  c5_max_items_cap.1 [gA, gB, gC] [] [] 0 2 1 [("a", gA)] (by decide) rfl

/-- Python `str.lower()` (ASCII). -/
def pyLower (l : List Char) : List Char := l.map Char.toLower

/-- `re.sub(r'\W+', '', s)`: remove every non-word character. -/
def stripNonWord (l : List Char) : List Char := l.filter pyWord

/-- `CI_FAILURE_STATUSES = ['failed']`. -/
def CI_FAILURE_STATUSES : List (List Char) := ["failed".toList]

/-- `CI_SUCCESS_STATUSES = ['succeeded', 'successful', 'ok']`. -/
def CI_SUCCESS_STATUSES : List (List Char) :=
  ["succeeded".toList, "successful".toList, "ok".toList]

/-- A `GerritMessage`: id, parsed date, text. -/
structure GMessage where
  message_id : String
  message_dt : Nat
  text : String

/-- A `GerritRevision` with its messages in stored order. -/
structure GRevision where
  number : Nat
  created_dt : Nat
  messages : List GMessage

/-- A `GerritChange`; `revisions` is listed in the ascending revision-number
order produced by `Change.revisions()`; `merged_dt` is `None` when the raw
change has no `submitted` field. -/
structure GChange where
  long_id : String
  change_id : String
  number : Nat
  project : String
  branch : String
  status : String
  created_dt : Nat
  updated_dt : Nat
  merged_dt : Option Nat
  revisions : List GRevision

/-- `defaultdict(int)` increment `d[k] += 1`. -/
def bumpAt {α : Type} [DecidableEq α] (f : α → Nat) (k : α) : α → Nat :=
  fun x => if x = k then f k + 1 else f x

/-- `defaultdict(int)` addition `d[k] += v`. -/
def addAt {α : Type} [DecidableEq α] (f : α → Nat) (k : α) (v : Nat) : α → Nat :=
  fun x => if x = k then f k + v else f x

/-- Plain dict / defaultdict assignment `d[k] = v`. -/
def setAt {α β : Type} [DecidableEq α] (f : α → β) (k : α) (v : β) : α → β :=
  fun x => if x = k then v else f x

/-- The six accumulator dicts of `parse_ci_stats`: `ci_total_time_sec` and
`ci_longest_time_sec` are keyed by `change.merged_dt` (an optional value),
`ci_success` / `ci_failure` by `change.updated_dt`, the promotion counters by
`message.message_dt`. -/
structure CiStats where
  ci_total_time_sec : Option Nat → Nat
  ci_longest_time_sec : Option Nat → Nat
  ci_success : Nat → Nat
  ci_failure : Nat → Nat
  promotion_success : Nat → Nat
  promotion_failure : Nat → Nat

/-- All accumulators start empty (`defaultdict(int)`). -/
def initCiStats : CiStats :=
  { ci_total_time_sec := fun _ => 0, ci_longest_time_sec := fun _ => 0,
    ci_success := fun _ => 0, ci_failure := fun _ => 0,
    promotion_success := fun _ => 0, promotion_failure := fun _ => 0 }

/-- `parse_ci_job_comments(msg)` from `zingstats/parser.py`. -/
def parseCiJobComments (msg : GMessage) : Except String (Option PRun) :=
  parseChangeMessages msg.text.toList gerritCiRunRE

/-- The `for ci_job in ci_run['jobs']` loop of `parse_ci_stats`: add each
job's seconds into `ci_total_time_sec[merged_dt]` and track the running
strict maximum in `ci_longest_time_sec[merged_dt]`. -/
def ciJobsFold (merged : Option Nat) (jobs : List PJob) (st : CiStats) : CiStats :=
  jobs.foldl (fun st job =>
    let st1 := { st with
      ci_total_time_sec := addAt st.ci_total_time_sec merged job.total_sec }
    if job.total_sec > st1.ci_longest_time_sec merged then
      { st1 with
        ci_longest_time_sec := setAt st1.ci_longest_time_sec merged job.total_sec }
    else st1) st

/-- The two promotion checks at the top of the `parse_ci_stats` message loop:
each counts only when the message is strictly newer than `start_dt`. -/
def promoStep (start_dt : Nat) (message : GMessage) (st : CiStats) : CiStats :=
  let st1 :=
    if parsePromotionSuccess message.text.toList && decide (start_dt < message.message_dt) then
      { st with promotion_success := bumpAt st.promotion_success message.message_dt }
    else st
  if parsePromotionFailure message.text.toList && decide (start_dt < message.message_dt) then
    { st1 with promotion_failure := bumpAt st1.promotion_failure message.message_dt }
  else st1

/-- One iteration of the innermost loop of `parse_ci_stats`: promotion
detectors, then CI-run parse; a parsed run older than `start_dt` is
discarded; otherwise the normalized status picks the success or failure
bucket at `updated_dt` (an unexpected status is skipped with a warning), and
for a MERGED change the job times are accumulated at `merged_dt`. -/
def processMessage (start_dt : Nat) (change : GChange) (message : GMessage)
    (st : CiStats) : Except String CiStats :=
  let st2 := promoStep start_dt message st
  match parseCiJobComments message with
  | .error e => .error e
  | .ok none => .ok st2
  | .ok (some run) =>
    if message.message_dt < start_dt then .ok st2
    else
      let status := stripNonWord (pyLower run.status)
      if CI_SUCCESS_STATUSES.contains status then
        let st3 := { st2 with ci_success := bumpAt st2.ci_success change.updated_dt }
        .ok (if change.status = "MERGED" then ciJobsFold change.merged_dt run.jobs st3 else st3)
      else if CI_FAILURE_STATUSES.contains status then
        let st3 := { st2 with ci_failure := bumpAt st2.ci_failure change.updated_dt }
        .ok (if change.status = "MERGED" then ciJobsFold change.merged_dt run.jobs st3 else st3)
      else .ok st2

/-- The `for message in revision.messages()` loop, propagating a parse error. -/
def processMessages (start_dt : Nat) (change : GChange) :
    CiStats → List GMessage → Except String CiStats
  | st, [] => .ok st
  | st, m :: rest =>
    match processMessage start_dt change m st with
    | .error e => .error e
    | .ok st1 => processMessages start_dt change st1 rest

/-- The `for revision in change.revisions()` loop. -/
def processRevisions (start_dt : Nat) (change : GChange) :
    CiStats → List GRevision → Except String CiStats
  | st, [] => .ok st
  | st, r :: rest =>
    match processMessages start_dt change st r.messages with
    | .error e => .error e
    | .ok st1 => processRevisions start_dt change st1 rest

/-- The `for gerrit_id in changes` loop. -/
def processChanges (start_dt : Nat) :
    CiStats → List GChange → Except String CiStats
  | st, [] => .ok st
  | st, ch :: rest =>
    match processRevisions start_dt ch st ch.revisions with
    | .error e => .error e
    | .ok st1 => processChanges start_dt st1 rest

/-- `parse_ci_stats(changes, start_dt)` up to the final DataFrame assembly,
which belongs to the reporting layer. -/
def parseCiStats (changes : List GChange) (start_dt : Nat) : Except String CiStats :=
  processChanges start_dt initCiStats changes

/-- The seven accumulator dicts of `parse_change` (via `parse_change_stats`):
`created` / `updated` are keyed by the respective timestamps, the
merged-change dicts by `change.merged_dt`. -/
structure ChangeStats where
  created : Nat → Nat
  updated : Nat → Nat
  merged : Option Nat → Nat
  revisions : Option Nat → Option Nat
  lifespan_sec : Option Nat → Option Int
  recheck : Option Nat → Nat
  reverify : Option Nat → Nat

/-- All accumulators start empty. -/
def initChangeStats : ChangeStats :=
  { created := fun _ => 0, updated := fun _ => 0, merged := fun _ => 0,
    revisions := fun _ => none, lifespan_sec := fun _ => none,
    recheck := fun _ => 0, reverify := fun _ => 0 }

/-- Python's substring operator `pat in s`. -/
def isSubOf (pat : List Char) : List Char → Bool
  | [] => pat.isEmpty
  | c :: rest => pat.isPrefixOf (c :: rest) || isSubOf pat rest

/-- The recheck/reverify scan of one message of a merged change: `recheck` is
checked first; the two are mutually exclusive per message. -/
def recheckStep (mergedKey : Option Nat) (message : GMessage) (st : ChangeStats) :
    ChangeStats :=
  if isSubOf ("recheck".toList) (pyLower message.text.toList) then
    { st with recheck := bumpAt st.recheck mergedKey }
  else if isSubOf ("reverify".toList) (pyLower message.text.toList) then
    { st with reverify := bumpAt st.reverify mergedKey }
  else st

/-- Message loop of the merged-change branch of `parse_change`. -/
def recheckMessages (mergedKey : Option Nat) (st : ChangeStats)
    (msgs : List GMessage) : ChangeStats :=
  msgs.foldl (fun s m => recheckStep mergedKey m s) st

/-- Revision loop of the merged-change branch of `parse_change`. -/
def recheckRevisions (mergedKey : Option Nat) (st : ChangeStats)
    (revs : List GRevision) : ChangeStats :=
  revs.foldl (fun s r => recheckMessages mergedKey s r.messages) st

/-- `parse_change(...)` for one change: `created` / `updated` / `merged` count
events with timestamp `>= start_dt` (note the inclusive comparison); for a
MERGED change the revision count, lifespan and recheck/reverify counts are
recorded at the merged timestamp.  A MERGED change with no `submitted`
timestamp has `merged_dt = None`, and Python 2 orders `None` below every
datetime, so its merged block is skipped. -/
def parseChange (start_dt : Nat) (change : GChange) (st : ChangeStats) : ChangeStats :=
  let st1 :=
    if start_dt ≤ change.created_dt then
      { st with created := bumpAt st.created change.created_dt }
    else st
  let st2 :=
    if start_dt ≤ change.updated_dt then
      { st1 with updated := bumpAt st1.updated change.updated_dt }
    else st1
  match change.merged_dt with
  | some d =>
    if change.status = "MERGED" ∧ start_dt ≤ d then
      let st3 := { st2 with merged := bumpAt st2.merged change.merged_dt }
      let st4 := { st3 with
        revisions := setAt st3.revisions change.merged_dt (some change.revisions.length) }
      let st5 := { st4 with
        lifespan_sec := setAt st4.lifespan_sec change.merged_dt
          (some ((d : Int) - (change.created_dt : Int))) }
      recheckRevisions change.merged_dt st5 change.revisions
    else st2
  | none => st2

/-- Project the ci_success bucket out of an aggregation result. -/
def ciSuccessAt (r : Except String CiStats) (t : Nat) : Option Nat :=
  match r with
  | .ok st => some (st.ci_success t)
  | .error _ => none

/-- Project the ci_failure bucket out of an aggregation result. -/
def ciFailureAt (r : Except String CiStats) (t : Nat) : Option Nat :=
  match r with
  | .ok st => some (st.ci_failure t)
  | .error _ => none

/-- Project the ci_total_time_sec bucket out of an aggregation result. -/
def ciTotalAt (r : Except String CiStats) (t : Option Nat) : Option Nat :=
  match r with
  | .ok st => some (st.ci_total_time_sec t)
  | .error _ => none

/-- Project the ci_longest_time_sec bucket out of an aggregation result. -/
def ciLongestAt (r : Except String CiStats) (t : Option Nat) : Option Nat :=
  match r with
  | .ok st => some (st.ci_longest_time_sec t)
  | .error _ => none

/-- The acknowledgement-style message of the C3 scenario: `Verified+1`, build
`succeeded`, single job `test-check` taking 7s, timestamped 300 (after the
cutoff 200). -/
def c3msg : GMessage :=
  { message_id := "9a5c5d37", message_dt := 300,
    text := "Patch Set 1: Verified+1\n\nBuild succeeded\n\n- https://zing.example.net/jenkins/job/test-check/6/ : SUCCESS in 7s" }

/-- The single revision of the C3 scenario change. -/
def c3rev : GRevision := { number := 1, created_dt := 100, messages := [c3msg] }

/-- The merged change of the C3 scenario: updated at 500, merged at 400. -/
def c3change : GChange :=
  { long_id := "proj~master~I1", change_id := "I1", number := 1, project := "p",
    branch := "master", status := "MERGED", created_dt := 100, updated_dt := 500,
    merged_dt := some 400, revisions := [c3rev] }

/-- C3: aggregating the merged change whose one revision carries one
acknowledgement-style message (Verified+1, build succeeded, job test-check in
7s) timestamped after the cutoff yields ci_success = 1 in the bucket keyed by
the change's updated timestamp (500), ci_total_time_sec = 7 and
ci_longest_time_sec = 7 in the bucket keyed by the merged timestamp (400) —
and nothing in the respective other buckets. -/
theorem c3_merged_change_scenario :
    ciSuccessAt (parseCiStats [c3change] 200) 500 = some 1 ∧
    ciTotalAt (parseCiStats [c3change] 200) (some 400) = some 7 ∧
    ciLongestAt (parseCiStats [c3change] 200) (some 400) = some 7 ∧
    ciFailureAt (parseCiStats [c3change] 200) 500 = some 0 ∧
    ciSuccessAt (parseCiStats [c3change] 200) 400 = some 0 ∧
    ciTotalAt (parseCiStats [c3change] 200) (some 500) = some 0 :=
  ⟨rfl, rfl, rfl, rfl, rfl, rfl⟩

theorem foldl_preserve {α β γ : Type} (f : γ → α → γ) (proj : γ → β)
    (hf : ∀ s a, proj (f s a) = proj s) (l : List α) :
    ∀ s, proj (List.foldl f s l) = proj s := by
  induction l with
  | nil => intro s; rfl
  | cons a l ih => intro s; rw [List.foldl_cons, ih, hf]

theorem ciJobsFold_preserves (merged : Option Nat) (jobs : List PJob) (st : CiStats) :
    (ciJobsFold merged jobs st).ci_success = st.ci_success ∧
    (ciJobsFold merged jobs st).ci_failure = st.ci_failure ∧
    (ciJobsFold merged jobs st).promotion_success = st.promotion_success ∧
    (ciJobsFold merged jobs st).promotion_failure = st.promotion_failure := by
  unfold ciJobsFold
  refine ⟨foldl_preserve _ _ ?_ jobs st, foldl_preserve _ _ ?_ jobs st,
    foldl_preserve _ _ ?_ jobs st, foldl_preserve _ _ ?_ jobs st⟩ <;>
    (intro s a; dsimp only; split_ifs <;> rfl)

theorem promoStep_preserves (start_dt : Nat) (message : GMessage) (st : CiStats) :
    (promoStep start_dt message st).ci_success = st.ci_success ∧
    (promoStep start_dt message st).ci_failure = st.ci_failure ∧
    (promoStep start_dt message st).ci_total_time_sec = st.ci_total_time_sec ∧
    (promoStep start_dt message st).ci_longest_time_sec = st.ci_longest_time_sec := by
  unfold promoStep
  split_ifs <;> exact ⟨rfl, rfl, rfl, rfl⟩

theorem ci_statuses_disjoint {status : List Char}
    (hf : CI_FAILURE_STATUSES.contains status = true) :
    CI_SUCCESS_STATUSES.contains status = false := by
  have : status = "failed".toList := by
    simpa [CI_FAILURE_STATUSES, List.contains_cons] using hf
  subst this
  decide

/-- C9: for every parsed CIRun whose message timestamp is on or after the
cutoff, the aggregator increments ci_success (at the updated_dt bucket)
exactly when the status, after case-folding and stripping non-word
characters, is in CI_SUCCESS_STATUSES; increments ci_failure exactly when it
is in CI_FAILURE_STATUSES; and for any other status counts the run in
neither bucket and also skips its job-time accounting entirely. -/
theorem c9_status_classification (start_dt : Nat) (change : GChange)
    (message : GMessage) (st : CiStats) (run : PRun)
    (hparse : parseCiJobComments message = .ok (some run))
    (hdt : start_dt ≤ message.message_dt) :
    ∃ st', processMessage start_dt change message st = .ok st' ∧
      (CI_SUCCESS_STATUSES.contains (stripNonWord (pyLower run.status)) = true →
        st'.ci_success = bumpAt st.ci_success change.updated_dt ∧
        st'.ci_failure = st.ci_failure) ∧
      (CI_FAILURE_STATUSES.contains (stripNonWord (pyLower run.status)) = true →
        st'.ci_failure = bumpAt st.ci_failure change.updated_dt ∧
        st'.ci_success = st.ci_success) ∧
      (CI_SUCCESS_STATUSES.contains (stripNonWord (pyLower run.status)) = false →
        CI_FAILURE_STATUSES.contains (stripNonWord (pyLower run.status)) = false →
        st'.ci_success = st.ci_success ∧ st'.ci_failure = st.ci_failure ∧
        st'.ci_total_time_sec = st.ci_total_time_sec ∧
        st'.ci_longest_time_sec = st.ci_longest_time_sec) := by
  obtain ⟨hps, hpf, hpt, hpl⟩ := promoStep_preserves start_dt message st
  unfold processMessage
  rw [hparse]
  dsimp only
  rw [if_neg (show ¬ (message.message_dt < start_dt) by omega)]
  by_cases hs : CI_SUCCESS_STATUSES.contains (stripNonWord (pyLower run.status)) = true
  · rw [if_pos hs]
    refine ⟨_, rfl, fun _ => ?_, fun hf => ?_, fun hns _ => ?_⟩
    · by_cases hmg : change.status = "MERGED"
      · rw [if_pos hmg]
        obtain ⟨hjs, hjf, _, _⟩ := ciJobsFold_preserves change.merged_dt run.jobs
          { promoStep start_dt message st with
            ci_success := bumpAt (promoStep start_dt message st).ci_success change.updated_dt }
        rw [hjs, hjf]
        exact ⟨by rw [hps], by rw [hpf]⟩
      · rw [if_neg hmg]
        exact ⟨by rw [hps], by rw [hpf]⟩
    · exact absurd hs (by rw [ci_statuses_disjoint hf]; simp)
    · exact absurd hs (by rw [hns]; simp)
  · rw [if_neg hs]
    by_cases hf : CI_FAILURE_STATUSES.contains (stripNonWord (pyLower run.status)) = true
    · rw [if_pos hf]
      refine ⟨_, rfl, fun hs' => ?_, fun _ => ?_, fun _ hf' => ?_⟩
      · exact absurd hs' hs
      · by_cases hmg : change.status = "MERGED"
        · rw [if_pos hmg]
          obtain ⟨hjs, hjf, _, _⟩ := ciJobsFold_preserves change.merged_dt run.jobs
            { promoStep start_dt message st with
              ci_failure := bumpAt (promoStep start_dt message st).ci_failure change.updated_dt }
          rw [hjs, hjf]
          exact ⟨by rw [hpf], by rw [hps]⟩
        · rw [if_neg hmg]
          exact ⟨by rw [hpf], by rw [hps]⟩
      · exact absurd hf (by rw [hf']; simp)
    · rw [if_neg hf]
      refine ⟨_, rfl, fun hs' => absurd hs' hs, fun hf' => absurd hf' hf, fun _ _ => ?_⟩
      exact ⟨hps, hpf, hpt, hpl⟩

/-- The run parsed from `c3msg`. -/
def c9run : PRun :=
  { num := some ("1".toList), v_score := some ("+1".toList),
    status := "succeeded".toList,
    jobs := [{ name := "test-check".toList, result := "SUCCESS".toList,
               total_sec := 7, non_voting := none }] }

theorem c9_status_classification_witness :
    ∃ st', processMessage 200 c3change c3msg initCiStats = .ok st' ∧
      (CI_SUCCESS_STATUSES.contains (stripNonWord (pyLower c9run.status)) = true →
        st'.ci_success = bumpAt initCiStats.ci_success c3change.updated_dt ∧
        st'.ci_failure = initCiStats.ci_failure) ∧
      (CI_FAILURE_STATUSES.contains (stripNonWord (pyLower c9run.status)) = true →
        st'.ci_failure = bumpAt initCiStats.ci_failure c3change.updated_dt ∧
        st'.ci_success = initCiStats.ci_success) ∧
      (CI_SUCCESS_STATUSES.contains (stripNonWord (pyLower c9run.status)) = false →
        CI_FAILURE_STATUSES.contains (stripNonWord (pyLower c9run.status)) = false →
        st'.ci_success = initCiStats.ci_success ∧
        st'.ci_failure = initCiStats.ci_failure ∧
        st'.ci_total_time_sec = initCiStats.ci_total_time_sec ∧
        st'.ci_longest_time_sec = initCiStats.ci_longest_time_sec) :=
  c9_status_classification 200 c3change c3msg initCiStats c9run rfl (by decide)

theorem processMessage_promo_fields (start_dt : Nat) (change : GChange)
    (message : GMessage) (st : CiStats) (r : Option PRun)
    (hparse : parseCiJobComments message = .ok r) :
    ∃ st', processMessage start_dt change message st = .ok st' ∧
      st'.promotion_success = (promoStep start_dt message st).promotion_success ∧
      st'.promotion_failure = (promoStep start_dt message st).promotion_failure := by
  cases r with
  | none =>
    refine ⟨promoStep start_dt message st, ?_, rfl, rfl⟩
    unfold processMessage
    rw [hparse]
  | some run =>
    unfold processMessage
    rw [hparse]
    dsimp only
    by_cases hlt : message.message_dt < start_dt
    · rw [if_pos hlt]
      exact ⟨_, rfl, rfl, rfl⟩
    · rw [if_neg hlt]
      split_ifs with h1 h2 h3 h4
      · obtain ⟨_, _, hp1, hp2⟩ := ciJobsFold_preserves change.merged_dt run.jobs
          { promoStep start_dt message st with
            ci_success := bumpAt (promoStep start_dt message st).ci_success change.updated_dt }
        exact ⟨_, rfl, hp1, hp2⟩
      · exact ⟨_, rfl, rfl, rfl⟩
      · obtain ⟨_, _, hp1, hp2⟩ := ciJobsFold_preserves change.merged_dt run.jobs
          { promoStep start_dt message st with
            ci_failure := bumpAt (promoStep start_dt message st).ci_failure change.updated_dt }
        exact ⟨_, rfl, hp1, hp2⟩
      · exact ⟨_, rfl, rfl, rfl⟩
      · exact ⟨_, rfl, rfl, rfl⟩

theorem recheckRevisions_pres (mk : Option Nat) (revs : List GRevision) (st : ChangeStats) :
    (recheckRevisions mk st revs).created = st.created ∧
    (recheckRevisions mk st revs).updated = st.updated ∧
    (recheckRevisions mk st revs).merged = st.merged := by
  unfold recheckRevisions
  refine ⟨foldl_preserve _ _ ?_ revs st, foldl_preserve _ _ ?_ revs st,
    foldl_preserve _ _ ?_ revs st⟩ <;>
    (intro s r
     unfold recheckMessages
     exact foldl_preserve _ _
       (fun s m => by unfold recheckStep; split_ifs <;> rfl) r.messages s)

theorem parseChange_created (start_dt : Nat) (change : GChange) (st : ChangeStats) :
    (parseChange start_dt change st).created =
      if start_dt ≤ change.created_dt then bumpAt st.created change.created_dt
      else st.created := by
  unfold parseChange
  dsimp only
  cases change.merged_dt with
  | none => dsimp only; split_ifs <;> rfl
  | some d =>
    dsimp only
    split_ifs <;>
      first
      | rfl
      | (rw [(recheckRevisions_pres (some d) change.revisions _).1])

theorem parseChange_updated (start_dt : Nat) (change : GChange) (st : ChangeStats) :
    (parseChange start_dt change st).updated =
      if start_dt ≤ change.updated_dt then bumpAt st.updated change.updated_dt
      else st.updated := by
  unfold parseChange
  dsimp only
  cases change.merged_dt with
  | none => dsimp only; split_ifs <;> rfl
  | some d =>
    dsimp only
    split_ifs <;>
      first
      | rfl
      | (rw [(recheckRevisions_pres (some d) change.revisions _).2.1])

theorem parseChange_merged_some (start_dt : Nat) (change : GChange) (st : ChangeStats)
    (d : Nat) (hmd : change.merged_dt = some d) :
    (parseChange start_dt change st).merged =
      if change.status = "MERGED" ∧ start_dt ≤ d then bumpAt st.merged (some d)
      else st.merged := by
  unfold parseChange
  dsimp only
  rw [hmd]
  dsimp only
  split_ifs <;>
    first
    | rfl
    | (rw [(recheckRevisions_pres (some d) change.revisions _).2.2])

/-- C10: the promotion counters use a strict comparison against the cutoff —
a promotion message timestamped exactly at the cutoff is not counted, while
one strictly after it is — unlike the created/updated/merged counters of
`parse_change`, which include events whose timestamp equals the cutoff. -/
theorem c10_promotion_strict_cutoff :
    (∀ (start_dt : Nat) (change : GChange) (message : GMessage) (st : CiStats)
      (r : Option PRun), parseCiJobComments message = .ok r →
      message.message_dt = start_dt →
      ∃ st', processMessage start_dt change message st = .ok st' ∧
        st'.promotion_success = st.promotion_success ∧
        st'.promotion_failure = st.promotion_failure) ∧
    (∀ (start_dt : Nat) (change : GChange) (message : GMessage) (st : CiStats)
      (r : Option PRun),
      parsePromotionSuccess message.text.toList = true →
      parseCiJobComments message = .ok r →
      start_dt < message.message_dt →
      ∃ st', processMessage start_dt change message st = .ok st' ∧
        st'.promotion_success message.message_dt =
          st.promotion_success message.message_dt + 1) ∧
    (∀ (start_dt : Nat) (change : GChange) (st : ChangeStats),
      change.created_dt = start_dt →
      (parseChange start_dt change st).created change.created_dt =
        st.created change.created_dt + 1) ∧
    (∀ (start_dt : Nat) (change : GChange) (st : ChangeStats),
      change.updated_dt = start_dt →
      (parseChange start_dt change st).updated change.updated_dt =
        st.updated change.updated_dt + 1) ∧
    (∀ (start_dt : Nat) (change : GChange) (st : ChangeStats),
      change.status = "MERGED" → change.merged_dt = some start_dt →
      (parseChange start_dt change st).merged change.merged_dt =
        st.merged change.merged_dt + 1) := by
  refine ⟨?_, ?_, ?_, ?_, ?_⟩
  · intro start_dt change message st r hparse heq
    have hpromo : promoStep start_dt message st = st := by
      have hdec : decide (start_dt < message.message_dt) = false := by
        rw [heq]
        simp
      unfold promoStep
      rw [hdec]
      simp
    obtain ⟨st', hrun, hp1, hp2⟩ :=
      processMessage_promo_fields start_dt change message st r hparse
    rw [hpromo] at hp1 hp2
    exact ⟨st', hrun, hp1, hp2⟩
  · intro start_dt change message st r hpsucc hparse hlt
    have hs2 : (promoStep start_dt message st).promotion_success =
        bumpAt st.promotion_success message.message_dt := by
      have hcond : (parsePromotionSuccess message.text.toList &&
          decide (start_dt < message.message_dt)) = true := by
        rw [hpsucc]
        simpa using hlt
      unfold promoStep
      rw [if_pos hcond]
      split_ifs <;> rfl
    obtain ⟨st', hrun, hp1, _⟩ :=
      processMessage_promo_fields start_dt change message st r hparse
    refine ⟨st', hrun, ?_⟩
    rw [hp1, hs2]
    simp [bumpAt]
  · intro start_dt change st heq
    rw [parseChange_created, if_pos (show start_dt ≤ change.created_dt by omega)]
    simp [bumpAt]
  · intro start_dt change st heq
    rw [parseChange_updated, if_pos (show start_dt ≤ change.updated_dt by omega)]
    simp [bumpAt]
  · intro start_dt change st hst hmd
    rw [parseChange_merged_some start_dt change st start_dt hmd,
      if_pos ⟨hst, Nat.le_refl start_dt⟩, hmd]
    simp [bumpAt]

/-- Promotion-success message timestamped exactly at the cutoff 200. -/
def c10msg1 : GMessage :=
  { message_id := "p1", message_dt := 200,
    text := "Promotion review https://review.example.net/1234 has brought into alpha channel following artifacts" }

/-- Promotion-success message timestamped strictly after the cutoff 200. -/
def c10msg2 : GMessage :=
  { message_id := "p2", message_dt := 300,
    text := "Promotion review https://review.example.net/1234 has brought into alpha channel following artifacts" }

theorem c10_promotion_strict_cutoff_witness :
    (∃ st', processMessage 200 c3change c10msg1 initCiStats = .ok st' ∧
      st'.promotion_success = initCiStats.promotion_success ∧
      st'.promotion_failure = initCiStats.promotion_failure) ∧
    (∃ st', processMessage 200 c3change c10msg2 initCiStats = .ok st' ∧
      st'.promotion_success 300 = initCiStats.promotion_success 300 + 1) ∧
    (parseChange 100 c3change initChangeStats).created 100 =
      initChangeStats.created 100 + 1 ∧
    (parseChange 500 c3change initChangeStats).updated 500 =
      initChangeStats.updated 500 + 1 ∧
    (parseChange 400 c3change initChangeStats).merged (some 400) =
      initChangeStats.merged (some 400) + 1 :=
  ⟨c10_promotion_strict_cutoff.1 200 c3change c10msg1 initCiStats none rfl rfl,
   c10_promotion_strict_cutoff.2.1 200 c3change c10msg2 initCiStats none rfl rfl (by decide),
   c10_promotion_strict_cutoff.2.2.1 100 c3change initChangeStats rfl,
   c10_promotion_strict_cutoff.2.2.2.1 500 c3change initChangeStats rfl,
   c10_promotion_strict_cutoff.2.2.2.2 400 c3change initChangeStats rfl rfl⟩
